import Mathlib

/-!
# zepp-fs-side (`src/index.js`): a file system on a flat key-value store

A shallow embedding of `src/index.js`.

* JavaScript strings are lists of characters (`Str`).
* The host store `settings.settingsStorage` is a function from keys to optional
  values.  The source stores `JSON.stringify` of a head record, `JSON.stringify`
  of a directory record, or the `binary` encoding of a byte buffer; the three
  shapes are the constructors of `Val`.  A record field whose value is
  `undefined` is dropped by `JSON.stringify` and read back as `undefined`, which
  is why `FileObj.path` is an `Option`.
* A JavaScript call either returns a value, returns `undefined`, or throws:
  the three constructors of `Res`.
* Functions that call `_setItem`/`_removeItem` return the new store next to
  their result; functions that touch `_file_handle_map` also return the new map.
* `new Date().getTime()` is a parameter of the functions that read the clock.
* Arguments have the types the source checks for with `typeof`; offsets,
  lengths and positions are natural numbers, and arithmetic that can go below
  zero is done in `Int`.
-/

namespace CBFS

abbrev Str := List Char

/-- A byte of an `ArrayBuffer` / `Uint8Array`. -/
abbrev Byte := Fin 256

/-- Outcome of a JavaScript call: a returned value, `undefined`, or an exception. -/
inductive Res (α : Type) where
  | ret (a : α)
  | undefined
  | throw
  deriving DecidableEq, Repr

/-! ## The path utility (`@cuberqaq/path-polyfill`) -/

/-- `s.endsWith("/")`. -/
def endsWithSlash (s : Str) : Bool := s.getLast? == some '/'

/-- Segments of a path between the `/` characters. -/
def splitSlash : Str → List Str
  | [] => [[]]
  | c :: cs =>
    if c = '/' then [] :: splitSlash cs
    else match splitSlash cs with
      | [] => [[c]]
      | s :: ss => (c :: s) :: ss

/-- Segments joined with `/`. -/
def joinSlash : List Str → Str
  | [] => []
  | [s] => s
  | s :: t :: ss => s ++ '/' :: joinSlash (t :: ss)

/-- One segment of the normalisation pass.  The stack holds the kept segments,
last one first: empty and `.` segments are skipped, `..` removes the last kept
segment (and is kept itself only in a relative path with nothing to remove). -/
def normStep (allowAboveRoot : Bool) (stack : List Str) (seg : Str) : List Str :=
  if seg = [] ∨ seg = ['.'] then stack
  else if seg = ['.', '.'] then
    match stack with
    | [] => if allowAboveRoot then [seg] else []
    | top :: rest =>
      if top = ['.', '.'] then (if allowAboveRoot then seg :: stack else stack) else rest
  else seg :: stack

/-- Modelled from the spec: the path utility's `normalize` ("assumed correct and
POSIX-like"); the package `@cuberqaq/path-polyfill` is imported by
`src/index.js` and is not part of the sources.  This is `path.posix.normalize`. -/
def normalize (p : Str) : Str :=
  if p = [] then ['.']
  else
    let isAbsolute := p.head? == some '/'
    let trailingSeparator := endsWithSlash p
    let body := joinSlash ((splitSlash p).foldl (normStep (!isAbsolute)) []).reverse
    if body = [] then
      if isAbsolute then ['/'] else if trailingSeparator then ['.', '/'] else ['.']
    else
      let body := if trailingSeparator then body ++ ['/'] else body
      if isAbsolute then '/' :: body else body

/-- Modelled from the spec: the path utility's `join` for the two-argument
calls of `src/index.js` (`path.posix.join`: the non-empty arguments are glued
with `/` and the result is normalised). -/
def join (a b : Str) : Str :=
  if a = [] then (if b = [] then ['.'] else normalize b)
  else if b = [] then normalize a
  else normalize (a ++ '/' :: b)

/-- The fields of `path.parse(p)` that `src/index.js` reads. -/
structure PathObj where
  root : Str
  dir : Str
  base : Str
  deriving DecidableEq, Repr

/-- Modelled from the spec: the path utility's `parse` (`path.posix.parse`):
trailing separators are ignored, `base` is what follows the last remaining
separator and `dir` is what precedes it (`/` when that separator is the root). -/
def parse (p : Str) : PathObj :=
  match p with
  | [] => { root := [], dir := [], base := [] }
  | c :: cs =>
    let isAbsolute := c == '/'
    let body := if isAbsolute then cs else c :: cs
    let rev := body.reverse.dropWhile (fun x => x == '/')
    let base := (rev.takeWhile (fun x => x != '/')).reverse
    let rest := rev.dropWhile (fun x => x != '/')
    let root := if isAbsolute then ['/'] else []
    match rest with
    | [] => { root := root, dir := root, base := base }
    | _ :: before => { root := root, dir := root ++ before.reverse, base := base }

/-! ## Records and the store -/

/-- A file record (`_buildFileObj`).  `path` is `none` when the field is
`undefined` (then `JSON.stringify` drops it). -/
structure FileObj where
  name : Str
  path : Option Str
  size : Nat
  utc : Nat
  block : Nat
  deriving DecidableEq, Repr

/-- A directory record (`_buildDirObj`). -/
structure DirObj where
  path : Str
  files : List FileObj
  dirs : List Str
  deriving DecidableEq, Repr

/-- The head record written by `_initFileSystem`. -/
structure Head where
  root : Str
  nextFileBlockId : Nat
  deriving DecidableEq, Repr

/-- A stored string: the JSON text of a head record, the JSON text of a
directory record, or the `binary` encoding of a byte buffer. -/
inductive Val where
  | head (h : Head)
  | dir (d : DirObj)
  | block (bytes : List Byte)
  deriving DecidableEq, Repr

abbrev Store := Str → Option Val

/-- The store with no key set. -/
def emptyStore : Store := fun _ => none

def _getItem (st : Store) (key : Str) : Option Val := st key

def _setItem (st : Store) (key : Str) (value : Val) : Store :=
  fun k => if k = key then some value else st k

def _removeItem (st : Store) (key : Str) : Store :=
  fun k => if k = key then none else st k

-- Operation Flags
def O_RDONLY : Nat := 0x01
def O_WRONLY : Nat := 0x02
def O_RDWR : Nat := 0x04
def O_APPEND : Nat := 0x08
def O_CREAT : Nat := 0x10
def O_EXCL : Nat := 0x20
def O_TRUNC : Nat := 0x30

def _getKey (type subKey : Str) : Str :=
  "CBFS$".toList ++ type ++ ":".toList ++ subKey

/-- The key of the head record, `_getKey("config", "head")`. -/
def headKey : Str := _getKey "config".toList "head".toList

/-- The key of a directory record, `_getKey("dir", path)`. -/
def dirKey (path : Str) : Str := _getKey "dir".toList path

/-- The key of a block, `_getKey("block", id)`: the number is converted to its
decimal text by the string concatenation. -/
def blockKey (id : Nat) : Str := _getKey "block".toList (Nat.toDigits 10 id)

/-- Non official error codes. -/
def ARG_TYPE_ERROR : Nat := 0x01
def OPERATION_FAILURE : Nat := 0x02
def DIR_NOT_EXIST : Nat := 0x03
def FILE_NOT_EXIST : Nat := 0x04
def INVALID_HANDLE : Nat := 0x05
def ALREADY_EXIST : Nat := 0x06

def _checkIfInited (st : Store) : Bool := (_getItem st headKey).isSome

def _initFileSystem (st : Store) : Store :=
  -- Already inited
  if _checkIfInited st then st
  else
    let head : Head := { root := "/".toList, nextFileBlockId := 1 }
    let data_dir : DirObj := { path := "/data".toList, files := [], dirs := [] }
    let assets_dir : DirObj := { path := "/assets".toList, files := [], dirs := [] }
    let root_dir : DirObj :=
      { path := "/".toList, files := [], dirs := ["data".toList, "assets".toList] }
    let st := _setItem st headKey (.head head)
    let st := _setItem st (dirKey "/".toList) (.dir root_dir)
    let st := _setItem st (dirKey "/data".toList) (.dir data_dir)
    _setItem st (dirKey "/assets".toList) (.dir assets_dir)

/-- The local `target_path` of `_getDirObj`: `path.join(root, path.normalize(pathLike))`
without its trailing `/`, except when it is `/`. -/
def targetPath (root pathLike : Str) : Str :=
  let target_path := join root (normalize pathLike)
  if target_path ≠ "/".toList ∧ endsWithSlash target_path then target_path.dropLast
  else target_path

/-- `_getDirObj(pathLike)`; `none` is a `pathLike` that is not a string.
`!_checkIfInited` negates a function object and is always false, so no
initialisation happens here; `JSON.parse` of a missing head record throws.
A value under a `dir` key that is not a directory record does not parse to
one (modelled as an exception). -/
def _getDirObj (st : Store) (pathLike : Option Str) : Res DirObj :=
  match pathLike with
  | none => .undefined
  | some pathLike =>
    match _getItem st headKey with
    | some (.head head) =>
      let target_path := targetPath head.root pathLike
      match _getItem st (dirKey target_path) with
      | none => .undefined
      | some (.dir dirObj) => .ret dirObj
      | some _ => .throw
    | _ => .throw

/-- `_getFileObj(pathLike)`; `none` is a `pathLike` that is not a string. -/
def _getFileObj (st : Store) (pathLike : Option Str) : Res FileObj :=
  match pathLike with
  | none => .undefined
  | some pathLike =>
    if endsWithSlash pathLike then .undefined
    else
      let pathObj := parse (join "/".toList pathLike)
      match _getDirObj st (some pathObj.dir) with
      | .throw => .throw
      | .undefined => .undefined
      | .ret dir =>
        match dir.files.find? (fun obj => obj.name = pathObj.base) with
        | some obj => .ret obj
        | none => .undefined

def _alloc (st : Store) : Res Nat × Store :=
  match _getItem st headKey with
  | some (.head head) =>
    let blockID := head.nextFileBlockId
    let head := { head with nextFileBlockId := head.nextFileBlockId + 1 }
    let st := _setItem st (blockKey blockID) (.block [])
    let st := _setItem st headKey (.head head)
    (.ret blockID, st)
  | _ => (.throw, st)

def _free (st : Store) (block_index : Nat) : Store :=
  _removeItem st (blockKey block_index)

/-! ## The handle table -/

/-- The value stored for an open handle, `{ path, flags }`. -/
structure HandleInfo where
  path : Str
  flags : Nat
  deriving DecidableEq, Repr

/-- The `Map` `_file_handle_map`, as its entries in insertion order. -/
abbrev HandleMap := List (Nat × HandleInfo)

/-- `_file_handle_map.has(handle)`. -/
def HandleMap.has (m : HandleMap) (handle : Nat) : Bool :=
  m.any (fun e => e.1 == handle)

/-- `_file_handle_map.get(handle)`. -/
def HandleMap.get (m : HandleMap) (handle : Nat) : Option HandleInfo :=
  (m.find? (fun e => e.1 == handle)).map (fun e => e.2)

/-- `_file_handle_map.set(handle, info)`: an existing key keeps its place. -/
def HandleMap.set (m : HandleMap) (handle : Nat) (info : HandleInfo) : HandleMap :=
  if m.has handle then m.map (fun e => if e.1 == handle then (handle, info) else e)
  else m ++ [(handle, info)]

/-- `_file_handle_map.delete(handle)`. -/
def HandleMap.delete (m : HandleMap) (handle : Nat) : HandleMap :=
  m.filter (fun e => e.1 != handle)

/-- The loop `while (_file_handle_map.has(handle)) ++handle;` run for at most
`fuel` tests of its condition; `none` when the loop is still running then. -/
def probeHandle (m : HandleMap) : Nat → Nat → Option Nat
  | 0, _ => none
  | fuel + 1, handle =>
    if m.has handle then probeHandle m fuel (handle + 1) else some handle

/-- The property `base` of a JavaScript string: strings have none, so the
expression `pathLike.base` is `undefined`. -/
def strBase (_pathLike : Str) : Option Str := none

/-- The property `name` of a JavaScript string: `undefined`. -/
def strName (_s : Str) : Option Str := none

/-- The property `path` of a JavaScript string: `undefined`. -/
def strPath (_s : Str) : Option Str := none

/-- The loop `while (i < len && files[i].name !== name) ++i;`: the index of the
first record called `name`, or `files.length`. -/
def findFileIndex (files : List FileObj) (name : Str) : Nat :=
  match files with
  | [] => 0
  | f :: fs => if f.name ≠ name then findFileIndex fs name + 1 else 0

/-- `_createFile(pathLike)` at clock reading `now`. -/
def _createFile (st : Store) (now : Nat) (pathLike : Str) : Res FileObj × Store :=
  if endsWithSlash pathLike then (.undefined, st)
  else
    let pathObj := parse (join "/".toList pathLike)
    match _getDirObj st (some pathObj.dir) with
    | .throw => (.throw, st)
    | .undefined => (.undefined, st)
    | .ret parentDirObj =>
      if parentDirObj.files.any (fun file => some file.name == strBase pathLike) then
        (.undefined, st) /- already exist -/
      else if parentDirObj.dirs.any (fun dirname => some dirname == strBase pathLike) then
        (.undefined, st) /- same name as exist dir -/
      else
        match _alloc st with
        | (.ret blockId, st) =>
          let fileObj : FileObj :=
            { name := pathObj.base, path := some pathObj.dir, size := 0, utc := now,
              block := blockId }
          let parentDirObj := { parentDirObj with files := parentDirObj.files ++ [fileObj] }
          let st := _setItem st (dirKey parentDirObj.path) (.dir parentDirObj)
          (.ret fileObj, st)
        | (_, st) => (.throw, st)

/-- What `_parseFileHandle(handle)` returns for a number: the stored
`{ path, flags }` and `fileObj: _getFileObj(path)`. -/
structure ParsedHandle where
  path : Str
  flags : Nat
  fileObj : Option FileObj
  deriving DecidableEq, Repr

def _parseFileHandle (st : Store) (m : HandleMap) (handle : Nat) : Res ParsedHandle :=
  if !m.has handle then .undefined
  else
    match m.get handle with
    | none => .undefined
    | some basic_info =>
      match _getFileObj st (some basic_info.path) with
      | .throw => .throw
      | .undefined => .ret { path := basic_info.path, flags := basic_info.flags, fileObj := none }
      | .ret f => .ret { path := basic_info.path, flags := basic_info.flags, fileObj := some f }

/-- `_getNewFileHandle(path, flags)`; `flags = none` is an omitted argument,
`tCreate` and `tHandle` are the clock readings in `_createFile` and here.  The
probing loop gets `m.length + 1` tests, which always suffice
(`probeHandle_isSome`); the last branch is never taken. -/
def _getNewFileHandle (st : Store) (m : HandleMap) (tCreate tHandle : Nat) (path : Str)
    (flags : Option Nat) : Res Nat × Store × HandleMap :=
  let flags := flags.getD O_RDONLY
  let step (st : Store) : Res Nat × Store × HandleMap :=
    let handle := (tHandle + 114514) % 1919810
    match probeHandle m (m.length + 1) handle with
    | some handle => (.ret handle, st, m.set handle { path := path, flags := flags })
    | none => (.throw, st, m)
  match _getFileObj st (some path) with
  | .throw => (.throw, st, m)
  | .undefined =>
    if Nat.land flags O_CREAT = 0 then (.undefined, st, m)
    else
      match _createFile st tCreate path with
      | (.ret _, st) => step st
      | (.undefined, st) => (.undefined, st, m)
      | (.throw, st) => (.throw, st, m)
  | .ret _ =>
    if Nat.land flags O_CREAT ≠ 0 ∧ Nat.land flags O_EXCL ≠ 0 then (.undefined, st, m)
    else step st

/-! ## Reading and writing -/

/-- The option object `{ offset, length, position }`; `none` is an omitted
field, which the destructuring defaults replace. -/
structure IOOptions where
  offset : Option Nat
  length : Option Nat
  position : Option Nat
  deriving DecidableEq, Repr

/-- `Number.MAX_SAFE_INTEGER`. -/
def MAX_SAFE_INTEGER : Nat := 9007199254740991

/-- The loop `for (let i = 0; i < count; ++i) dst[dstStart + i] = src[srcStart + i];`
on byte arrays, after `count` rounds: a read past the end of `src` gives
`undefined` (or `NaN` from `charCodeAt`), stored as `0`, and a write past the
end of `dst` does nothing. -/
def copyLoop (dst src : List Byte) (dstStart srcStart : Nat) : Nat → List Byte
  | 0 => dst
  | i + 1 => (copyLoop dst src dstStart srcStart i).set (dstStart + i) (src.getD (srcStart + i) 0)

/-- `_readFile(fileObj, buf, { offset, length, position })` with an
`ArrayBuffer` `buf`: the returned `{ buf, length }`.  `fileObj = none` is
`undefined`.  A key with no block value gives `undefined`. -/
def _readFile (st : Store) (fileObj : Option FileObj) (buf : List Byte) (o : IOOptions) :
    Res (List Byte × Int) :=
  match fileObj with
  | none => .undefined
  | some fileObj =>
    match _getItem st (blockKey fileObj.block) with
    | some (.block raw_str) =>
      let offset := o.offset.getD 0
      let length : Int := o.length.getD MAX_SAFE_INTEGER
      let position := o.position.getD 0
      let length : Int :=
        if length ≤ (raw_str.length : Int) - position then length else raw_str.length
      let length : Int :=
        if length > (buf.length : Int) - offset then (buf.length : Int) - offset else length
      .ret (copyLoop buf raw_str offset position length.toNat, length)
    | _ => .undefined

/-- The value of `buf` after the statement `if (position != 0) { ... }` of
`_writeFile`, the bytes that become the block: for `position` `0` the source
buffer itself; otherwise a zeroed buffer of `max(raw.length, position + length)`
bytes that gets the old block `raw` (`""` when the key is not set) and then, from
`position` on, `len` source bytes from `offset` on. -/
def newBlock (st : Store) (fileObj : FileObj) (buf : List Byte) (offset : Nat) (length : Int)
    (position : Nat) : List Byte :=
  if position ≠ 0 then
    let raw : List Byte :=
      match _getItem st (blockKey fileObj.block) with
      | some (.block raw) => raw
      | _ => []
    let len : Int := raw.length
    let len : Int := if len < position + length then position + length else len
    let temp_buf : List Byte := List.replicate len.toNat 0
    let temp_buf := copyLoop temp_buf raw 0 0 raw.length
    copyLoop temp_buf buf position offset len.toNat
  else buf

/-- `_writeFile(fileObj, bin, { offset, length, position })` with an
`ArrayBuffer` `bin`, at clock reading `now`: the `length` of the returned
`{ length }`.  Reading `.files` of an `undefined` parent record throws. -/
def _writeFile (st : Store) (now : Nat) (fileObj : Option FileObj) (bin : List Byte)
    (o : IOOptions) : Res Int × Store :=
  match fileObj with
  | none => (.undefined, st)
  | some fileObj =>
    let offset := o.offset.getD 0
    let length : Int := o.length.getD MAX_SAFE_INTEGER
    let position := o.position.getD 0
    let buf := bin
    let length : Int :=
      if length > (buf.length : Int) - offset then (buf.length : Int) - offset else length
    let buf := newBlock st fileObj buf offset length position
    let fileObj := { fileObj with size := buf.length, utc := now }
    match _getDirObj st fileObj.path with
    | .ret parentDirObj =>
      let i := findFileIndex parentDirObj.files fileObj.name
      if i = parentDirObj.files.length then
        (.undefined, st) /- Can not find fileObj in Parent Dir Obj -/
      else
        let parentDirObj := { parentDirObj with files := parentDirObj.files.set i fileObj }
        let st := _setItem st (dirKey parentDirObj.path) (.dir parentDirObj)
        let st := _setItem st (blockKey fileObj.block) (.block buf)
        (.ret length, st) /- Success -/
    | _ => (.throw, st)

/-- `_removeFile(pathLike)`; reading `.files` of an `undefined` parent record
throws. -/
def _removeFile (st : Store) (pathLike : Option Str) : Res Nat × Store :=
  match _getFileObj st pathLike with
  | .throw => (.throw, st)
  | .undefined => (.undefined, st)
  | .ret fileObj =>
    match _getDirObj st fileObj.path with
    | .ret parentDirObj =>
      let i := findFileIndex parentDirObj.files fileObj.name
      if i = parentDirObj.files.length then (.undefined, st)
      else
        let parentDirObj := { parentDirObj with files := parentDirObj.files.eraseIdx i }
        let st := _setItem st (dirKey parentDirObj.path) (.dir parentDirObj)
        let st := _free st fileObj.block
        (.ret 0, st)
    | _ => (.throw, st)

/-- `_mkdir(pathLike)`.  `parentDirObj.dirs.push(pathObj.base)` changes the
parsed copy of the parent record only: the source has no `_setItem` for it. -/
def _mkdir (st : Store) (pathLike : Str) : Res DirObj × Store :=
  let pathObj := parse (join "/".toList pathLike)
  match _getDirObj st (some pathObj.dir) with
  | .throw => (.throw, st)
  | .undefined => (.undefined, st)
  | .ret parentDirObj =>
    if parentDirObj.path = pathObj.root then (.undefined, st)
    else if parentDirObj.dirs.any (fun dir => dir = pathObj.base) then (.undefined, st)
    else if parentDirObj.dirs.any (fun file => strName file == some pathObj.base) then
      (.undefined, st)
    else
      let dirObj : DirObj :=
        { path := join pathObj.dir pathObj.base, dirs := [], files := [] }
      let st := _setItem st (dirKey (join pathObj.dir pathObj.base)) (.dir dirObj)
      (.ret dirObj, st)

/-- The tail of `_moveFile` after the file was taken out of its old list:
rename, `fileObj.path = newPathLike.path`, push, and the two `_setItem`. -/
def moveFileStore (st : Store) (fileObj : FileObj) (oldParentObj newParentObj : DirObj)
    (newPathLike : Str) : Res Nat × Store :=
  let fileObj :=
    if !endsWithSlash newPathLike then { fileObj with name := (parse newPathLike).base }
    else fileObj
  let fileObj := { fileObj with path := strPath newPathLike }
  let newParentObj := { newParentObj with files := newParentObj.files ++ [fileObj] }
  let st := _setItem st (dirKey oldParentObj.path) (.dir oldParentObj)
  let st := _setItem st (dirKey newParentObj.path) (.dir newParentObj)
  (.ret 0, st)

/-- `_moveFile(oldPathLike, newPathLike)`.  `oldParentObj.path` throws when
`_getDirObj(fileObj.path)` returned `undefined`. -/
def _moveFile (st : Store) (oldPathLike newPathLike : Str) : Res Nat × Store :=
  match _getFileObj st (some oldPathLike) with
  | .throw => (.throw, st)
  | .undefined => (.undefined, st)
  | .ret fileObj =>
    match _getFileObj st (some newPathLike) with
    | .throw => (.throw, st)
    | .ret _ => (.undefined, st)
    | .undefined =>
      match _getDirObj st fileObj.path with
      | .throw => (.throw, st)
      | oldParentObj =>
        match (if endsWithSlash newPathLike then _getDirObj st (some newPathLike)
               else _getDirObj st (some (parse newPathLike).dir)) with
        | .throw => (.throw, st)
        | .undefined => (.undefined, st)
        | .ret newParentObj =>
          match (if endsWithSlash newPathLike then
                   _getFileObj st (some (join newPathLike fileObj.name))
                 else .undefined) with
          | .throw => (.throw, st)
          | .ret _ => (.undefined, st)
          | .undefined =>
            match oldParentObj with
            | .ret oldParentObj =>
              if oldParentObj.path ≠ newParentObj.path then
                let oldFileIndex := findFileIndex oldParentObj.files fileObj.name
                if oldFileIndex = oldParentObj.files.length then (.undefined, st)
                else
                  moveFileStore st fileObj
                    { oldParentObj with files := oldParentObj.files.eraseIdx oldFileIndex }
                    newParentObj newPathLike
              else
                let oldFileIndex := findFileIndex newParentObj.files fileObj.name
                if oldFileIndex = newParentObj.files.length then (.undefined, st)
                else
                  moveFileStore st fileObj oldParentObj
                    { newParentObj with files := newParentObj.files.eraseIdx oldFileIndex }
                    newPathLike
            | _ => (.throw, st)

/-! ## The public operations -/

/-- `openSync({ path, flag })`; `flag = none` is an omitted flag.  A failure is
an exception. -/
def openSync (st : Store) (m : HandleMap) (tCreate tHandle : Nat) (path : Str)
    (flag : Option Nat) : Res Nat × Store × HandleMap :=
  let flag := flag.getD O_RDONLY
  let st := if !_checkIfInited st then _initFileSystem st else st
  match _getNewFileHandle st m tCreate tHandle (join "/data".toList path) (some flag) with
  | (.ret handle, st, m) => (.ret handle, st, m)
  | (_, st, m) => (.throw, st, m)

/-- The record `{ size, mtimeMs }` returned by `statSync`. -/
structure Stat where
  size : Nat
  mtimeMs : Nat
  deriving DecidableEq, Repr

/-- `statSync({ path })`. -/
def statSync (st : Store) (path : Str) : Res Stat :=
  match _getFileObj st (some (join "/data/".toList path)) with
  | .throw => .throw
  | .undefined => .undefined
  | .ret fileObj => .ret { size := fileObj.size, mtimeMs := fileObj.utc }

/-- `readSync({ fd, buffer, options })`: the returned length, next to the
contents of `buffer` after the call. -/
def readSync (st : Store) (m : HandleMap) (fd : Nat) (buffer : List Byte) (options : IOOptions) :
    Res (List Byte × Int) :=
  match _parseFileHandle st m fd with
  | .throw => .throw
  | .undefined => .undefined
  | .ret handle_info => _readFile st handle_info.fileObj buffer options

/-- `writeSync({ fd, buffer, options })` at clock reading `now`. -/
def writeSync (st : Store) (m : HandleMap) (now : Nat) (fd : Nat) (buffer : List Byte)
    (options : IOOptions) : Res Int × Store :=
  match _parseFileHandle st m fd with
  | .throw => (.throw, st)
  | .undefined => (.undefined, st)
  | .ret handle_info => _writeFile st now handle_info.fileObj buffer options

/-- The argument of `rmSync`: a string, or an object whose `path` is given to
`_removeFile` as it is. -/
inductive RmArg where
  | str (path : Str)
  | obj (path : Option Str)
  deriving DecidableEq, Repr

/-- `rmSync(option_or_path)`. -/
def rmSync (st : Store) (option_or_path : RmArg) : Res Nat × Store :=
  let res :=
    match option_or_path with
    | .str p => _removeFile st (some (join "/data".toList p))
    | .obj p => _removeFile st p
  match res with
  | (.throw, st) => (.throw, st)
  | (.undefined, st) => (.ret OPERATION_FAILURE, st)
  | (.ret _, st) => (.ret 0, st)

/-- `renameSync({ oldPath, newPath })`. -/
def renameSync (st : Store) (oldPath newPath : Str) : Res Nat × Store :=
  if endsWithSlash oldPath || endsWithSlash newPath then (.ret ARG_TYPE_ERROR, st)
  else
    match _moveFile st (join "/data/".toList oldPath) (join "/data/".toList newPath) with
    | (.throw, st) => (.throw, st)
    | (.undefined, st) => (.ret OPERATION_FAILURE, st)
    | (.ret _, st) => (.ret 0, st) /- Success -/

/-- `mkdirSync(option_or_path)`, for a string or an object with a string `path`. -/
def mkdirSync (st : Store) (pathLike : Str) : Res Nat × Store :=
  match _mkdir st pathLike with
  | (.throw, st) => (.throw, st)
  | (.undefined, st) => (.ret OPERATION_FAILURE, st)
  | (.ret _, st) => (.ret 0, st) /- Success -/

/-- `readdirSync({ path })`. -/
def readdirSync (st : Store) (path : Str) : Res (List Str) :=
  match _getDirObj st (some path) with
  | .throw => .throw
  | .undefined => .undefined
  | .ret dirObj => .ret (dirObj.dirs ++ dirObj.files.map (fun fileObj => fileObj.name))

/-! ## Closing handles and resetting -/

/-- The argument of `closeSync`: `undefined`, a number, or an object whose
`fd` is a number or missing. -/
inductive CloseArg where
  | undefined
  | fd (handle : Nat)
  | obj (fd : Option Nat)
  deriving DecidableEq, Repr

/-- `closeSync(option_or_fd)`: the returned code and the handle table after
the call. -/
def closeSync (m : HandleMap) (option_or_fd : CloseArg) : Nat × HandleMap :=
  match option_or_fd with
  | .undefined => (ARG_TYPE_ERROR, m)
  | .obj none => (ARG_TYPE_ERROR, m)
  | .fd handle | .obj (some handle) =>
    if !m.has handle then (INVALID_HANDLE, m)
    else (0, m.delete handle) /- Success -/

/-- The object `{ deletedDirCount, deletedFileCount }` of `_resetFileSystem`. -/
structure ResetResult where
  deletedDirCount : Nat
  deletedFileCount : Nat
  deriving DecidableEq, Repr

/-- The loop `for (let childDirname of dirObj.dirs)` of `_resetFileSystem`:
each name is given to `_getDirObj` as it is, and a record that is found is
pushed onto the queue. -/
def enqueueChildren (st : Store) : List Str → List DirObj → Res (List DirObj)
  | [], quene => .ret quene
  | childDirname :: rest, quene =>
    match _getDirObj st (some childDirname) with
    | .throw => .throw
    | .undefined => enqueueChildren st rest quene
    | .ret childDirObj => enqueueChildren st rest (quene ++ [childDirObj])

/-- The loop `while (quene.length > 0)` of `_resetFileSystem`, for at most
`fuel` rounds; `none` when the queue is not empty after them.  The arguments
are the store, the queue and the two counters. -/
def resetLoop : Nat → Store → List DirObj → Nat → Nat → Option (Res ResetResult × Store)
  | _, st, [], deletedDirCount, deletedFileCount =>
    some (.ret { deletedDirCount := deletedDirCount, deletedFileCount := deletedFileCount }, st)
  | 0, _, _ :: _, _, _ => none
  | fuel + 1, st, dirObj :: quene, deletedDirCount, deletedFileCount =>
    -- Delete Files
    let st := dirObj.files.foldl (fun st fileObj => _free st fileObj.block) st
    let deletedFileCount := deletedFileCount + dirObj.files.length
    -- Enquene Children Dirs
    match enqueueChildren st dirObj.dirs quene with
    | .ret quene =>
      -- Delete Dir Obj
      resetLoop fuel (_removeItem st (dirKey dirObj.path)) quene (deletedDirCount + 1)
        deletedFileCount
    | _ => some (.throw, st)

/-- `_resetFileSystem()` with at most `fuel` rounds of its loop (`none` when
they do not suffice).  `.ret none` is the returned `false`. -/
def _resetFileSystem (fuel : Nat) (st : Store) : Option (Res (Option ResetResult) × Store) :=
  if !_checkIfInited st then some (.ret none, st)
  else
    match _getItem st headKey with
    | some (.head head) =>
      match _getDirObj st (some head.root) with
      | .throw => some (.throw, st)
      | .undefined => some (.ret none, st)
      | .ret rootDirObj =>
        match resetLoop fuel st [rootDirObj] 0 0 with
        | none => none
        | some (.ret r, st) =>
          -- Delete Head
          some (.ret (some r), _removeItem st headKey)
        | some (_, st) => some (.throw, st)
    | _ => some (.throw, st)

/-! ## Predicates on stores -/

/-- Every value under a `dir` key is a directory record that carries the path
of its key: the shape of every directory record the source writes. -/
def StoreOK (st : Store) : Prop :=
  ∀ p v, st (dirKey p) = some v → ∃ d : DirObj, v = .dir d ∧ d.path = p

/-- The kept segments of `/data/P`. -/
def dataSegs (P : Str) : List Str :=
  ((splitSlash P).foldl (normStep false) ["data".toList]).reverse

/-- Every kept segment is non-empty and has no separator in it. -/
def SegsOK (l : List Str) : Prop := ∀ s ∈ l, s ≠ [] ∧ '/' ∉ s

/-! ## Example runs -/

/-- The store after `_initFileSystem()` on a store with no key set. -/
def freshFS : Store := _initFileSystem emptyStore

/-- The first call `openSync({path: "a", flag: O_CREAT})` on the empty store
and the empty handle table, with the clock at `100` in `_createFile` and at
`200` in `_getNewFileHandle`: the handle is `(200 + 114514) % 1919810 = 114714`. -/
def openedA : Res Nat × Store × HandleMap :=
  openSync emptyStore [] 100 200 "a".toList (some O_CREAT)

/-- The call `writeSync({fd: 114714, buffer: [1, 2, 3, 4]})` after `openedA`,
with the clock at `300`: the file `a` then holds the four bytes. -/
def filledA : Res Int × Store :=
  writeSync openedA.2.1 openedA.2.2 300 114714 [1, 2, 3, 4]
    { offset := none, length := none, position := none }

/-- The call `renameSync({oldPath: "a", newPath: "b"})` after `openedA`. -/
def renamedAB : Res Nat × Store :=
  renameSync openedA.2.1 "a".toList "b".toList

/-- The call `mkdirSync("/data/sub")` on the initialised store. -/
def madeSub : Res Nat × Store :=
  mkdirSync freshFS "/data/sub".toList

/-- The old block as `_writeFile` reads it: `""` when the key holds no block. -/
def oldBlock (st : Store) (fileObj : FileObj) : List Byte :=
  match _getItem st (blockKey fileObj.block) with
  | some (.block raw) => raw
  | _ => []

/-- The call `openSync({path: "b", flag: O_CREAT})` after `openedA`, with the
clock at `110` and `210`: the handle is `114724` and the store holds the files
`a` and `b`. -/
def openedAB : Res Nat × Store × HandleMap :=
  openSync openedA.2.1 openedA.2.2 110 210 "b".toList (some O_CREAT)

/-- The call `openSync({path: "sub/f", flag: O_CREAT})` after `madeSub`: the
file `f` of the directory `/data/sub`, with block `1`. -/
def openedSubF : Res Nat × Store × HandleMap :=
  openSync madeSub.2 [] 100 200 "sub/f".toList (some O_CREAT)

/-- The call `openSync({path: "a", flag: O_CREAT})` after `openedSubF`: the
file `a` of `/data`, with block `2`. -/
def openedSubFA : Res Nat × Store × HandleMap :=
  openSync openedSubF.2.1 openedSubF.2.2 110 210 "a".toList (some O_CREAT)

/-- The call `openSync({path: "b"})` after `renamedAB`, with the handle table
of `openedA`: a handle for the renamed file, `114814`. -/
def reopenedB : Res Nat × Store × HandleMap :=
  openSync renamedAB.2 openedA.2.2 500 300 "b".toList none

/-- The call `_createFile("/data/a")` on the initialised store. -/
def createdA : Res FileObj × Store :=
  _createFile freshFS 100 "/data/a".toList

/-- The call `_createFile("/data/a")` a second time, after `createdA`. -/
def createdAA : Res FileObj × Store :=
  _createFile createdA.2 110 "/data/a".toList

/-- The number a decimal text stands for, read from the left. -/
def readDigits (init : Nat) (ds : List Char) : Nat :=
  ds.foldl (fun acc c => acc * 10 + (c.toNat - 48)) init

/-- The record types `_getKey` is called with in `src/index.js`. -/
def recordTypes : List Str := ["config".toList, "dir".toList, "block".toList]

/-- The store after `_resetFileSystem()` on the store of `openedSubF`; the
loop of the reset ends after three rounds. -/
def resetSubF : Store :=
  match _resetFileSystem 3 openedSubF.2.1 with
  | some r => r.2
  | none => openedSubF.2.1

/-- The call `openSync({path: "a", flag: O_CREAT})` after `resetSubF`, with an
empty handle table and the clock at `300` and `400`: the handle is `114914`. -/
def reopenedA : Res Nat × Store × HandleMap :=
  openSync resetSubF [] 300 400 "a".toList (some O_CREAT)

/-- The call `writeSync({fd: 114914, buffer: [1, 2, 3]})` after `reopenedA`,
with the clock at `500`. -/
def refilledA : Res Int × Store :=
  writeSync reopenedA.2.1 reopenedA.2.2 500 114914 [1, 2, 3]
    { offset := none, length := none, position := none }

/-- The call `_removeFile("/data/a")` after `createdA`. -/
def removedA : Res Nat × Store :=
  _removeFile createdA.2 (some "/data/a".toList)

/-! ## Reachable stores -/

/-- One call that writes to the store, as the public operations make them:
`_createFile` (from `openSync` and `openAssetsSync`, through
`_getNewFileHandle`), `_writeFile` on a record that `_getFileObj` returned
(from `writeSync` and `writeFileSync`), `_removeFile` (from `rmSync`),
`_moveFile` (from `renameSync`) and `_mkdir` (from `mkdirSync`), each with any
arguments.  `_resetFileSystem` is not among them. -/
inductive Step : Store → Store → Prop where
  | createFile (st : Store) (now : Nat) (pathLike : Str) :
      Step st (_createFile st now pathLike).2
  | writeFile (st : Store) (now : Nat) (path : Str) (fileObj : FileObj) (bin : List Byte)
      (o : IOOptions) :
      _getFileObj st (some path) = .ret fileObj →
      Step st (_writeFile st now (some fileObj) bin o).2
  | removeFile (st : Store) (pathLike : Option Str) : Step st (_removeFile st pathLike).2
  | moveFile (st : Store) (oldPathLike newPathLike : Str) :
      Step st (_moveFile st oldPathLike newPathLike).2
  | mkdir (st : Store) (pathLike : Str) : Step st (_mkdir st pathLike).2

/-- The stores reached from the store that `_initFileSystem()` writes on an
empty store, by any number of calls, without a reset. -/
def Reachable (st : Store) : Prop :=
  Relation.ReflTransGen Step (_initFileSystem emptyStore) st

/-- The `size` of the record is the length of the block stored under the
record's block id. -/
def SizedFile (st : Store) (f : FileObj) : Prop :=
  ∃ b, st (blockKey f.block) = some (.block b) ∧ f.size = b.length

/-- The invariant of the reachable stores, with `n` the counter of the head
record: the block id of every file record is below `n`; no two file records
have the same block id, in one directory record (`nodup`) or in two (`cross`);
a file record that has a `path` is in the directory record that this path leads
to (`home`); and the size of every record is the length of its block. -/
structure FSInv (st : Store) (n : Nat) : Prop where
  head : st headKey = some (.head { root := "/".toList, nextFileBlockId := n })
  ok : StoreOK st
  lt : ∀ p d, st (dirKey p) = some (.dir d) → ∀ f ∈ d.files, f.block < n
  nodup : ∀ p d, st (dirKey p) = some (.dir d) → (d.files.map FileObj.block).Nodup
  cross : ∀ p1 d1 p2 d2, st (dirKey p1) = some (.dir d1) → st (dirKey p2) = some (.dir d2) →
    ∀ f1 ∈ d1.files, ∀ f2 ∈ d2.files, f1.block = f2.block → p1 = p2
  home : ∀ p d, st (dirKey p) = some (.dir d) → ∀ f ∈ d.files, ∀ q, f.path = some q →
    targetPath "/".toList q = p
  sized : ∀ p d, st (dirKey p) = some (.dir d) → ∀ f ∈ d.files, SizedFile st f

/-- The call `_writeFile(fileObj, [9], {position: 6})` after `filledA`, on the
record of `a` that `_getFileObj("/data/a")` returns there, with the clock at
`400`: a write two bytes past the end of the four bytes of `a`. -/
def gapWrittenA : Res Int × Store :=
  _writeFile filledA.2 400
    (some { name := "a".toList, path := some "/data".toList, size := 4, utc := 300, block := 1 })
    [9] { offset := none, length := none, position := some 6 }

/-! # Theorems -/

/-! ## Keys -/

theorem headKey_ne_dirKey (p : Str) : headKey ≠ dirKey p := by
  simp [headKey, dirKey, _getKey]

theorem dirKey_ne_headKey (p : Str) : dirKey p ≠ headKey := by
  simp [headKey, dirKey, _getKey]

theorem blockKey_ne_dirKey (n : Nat) (p : Str) : blockKey n ≠ dirKey p := by
  simp [blockKey, dirKey, _getKey]

theorem dirKey_ne_blockKey (p : Str) (n : Nat) : dirKey p ≠ blockKey n := by
  simp [blockKey, dirKey, _getKey]

theorem blockKey_ne_headKey (n : Nat) : blockKey n ≠ headKey := by
  simp [blockKey, headKey, _getKey]

theorem headKey_ne_blockKey (n : Nat) : headKey ≠ blockKey n := by
  simp [blockKey, headKey, _getKey]

theorem dirKey_inj {p q : Str} (h : dirKey p = dirKey q) : p = q := by
  simpa [dirKey, _getKey] using h

@[simp] theorem setItem_same (st : Store) (k : Str) (v : Val) : _setItem st k v k = some v := by
  simp [_setItem]

theorem setItem_other (st : Store) {k k2 : Str} (v : Val) (h : k2 ≠ k) :
    _setItem st k v k2 = st k2 := by
  simp [_setItem, h]

/-! ## Directory lookup -/

theorem getDirObj_ret {st : Store} {p : Str} {d : DirObj}
    (h : _getDirObj st (some p) = .ret d) :
    ∃ head : Head, st headKey = some (.head head) ∧
      st (dirKey (targetPath head.root p)) = some (.dir d) := by
  unfold _getDirObj at h
  simp only [_getItem] at h
  split at h
  · rename_i head hh
    refine ⟨head, hh, ?_⟩
    split at h
    · cases h
    · rename_i dd hd
      cases h
      exact hd
    · cases h
  · cases h

theorem getDirObj_undefined {st : Store} {p : Str}
    (h : _getDirObj st (some p) = .undefined) :
    ∃ head : Head, st headKey = some (.head head) ∧
      st (dirKey (targetPath head.root p)) = none := by
  unfold _getDirObj at h
  simp only [_getItem] at h
  split at h
  · rename_i head hh
    refine ⟨head, hh, ?_⟩
    split at h
    · assumption
    · cases h
    · cases h
  · cases h

theorem getDirObj_of_head {st : Store} {head : Head} (hh : st headKey = some (.head head))
    (p : Str) :
    _getDirObj st (some p) =
      match st (dirKey (targetPath head.root p)) with
      | none => .undefined
      | some (.dir dirObj) => .ret dirObj
      | some _ => .throw := by
  simp only [_getDirObj, _getItem, hh]

/-- With a head record and well-shaped directory records a lookup never throws. -/
theorem getDirObj_ne_throw {st : Store} {head : Head} (hok : StoreOK st)
    (hh : st headKey = some (.head head)) (p : Option Str) : _getDirObj st p ≠ .throw := by
  cases p with
  | none => simp [_getDirObj]
  | some p =>
    rw [getDirObj_of_head hh]
    cases hv : st (dirKey (targetPath head.root p)) with
    | none => simp
    | some v =>
      obtain ⟨d, rfl, _⟩ := hok _ _ hv
      simp

theorem getFileObj_ne_throw {st : Store} {head : Head} (hok : StoreOK st)
    (hh : st headKey = some (.head head)) (p : Option Str) : _getFileObj st p ≠ .throw := by
  cases p with
  | none => simp [_getFileObj]
  | some p =>
    unfold _getFileObj
    simp only
    split
    · simp
    · have := getDirObj_ne_throw hok hh (some (parse (join "/".toList p)).dir)
      split
      · contradiction
      · simp
      · split <;> simp

/-- A lookup that does not throw found a head record. -/
theorem head_of_getDirObj {st : Store} {p : Str} (h : _getDirObj st (some p) ≠ .throw) :
    ∃ head : Head, st headKey = some (.head head) := by
  unfold _getDirObj at h
  simp only [_getItem] at h
  split at h
  · rename_i head hh
    exact ⟨head, hh⟩
  · exact absurd rfl h

theorem head_of_getFileObj {st : Store} {p : Str} {f : FileObj}
    (h : _getFileObj st (some p) = .ret f) :
    ∃ head : Head, st headKey = some (.head head) := by
  unfold _getFileObj at h
  simp only at h
  split at h
  · cases h
  · apply head_of_getDirObj (p := (parse (join "/".toList p)).dir)
    intro hc
    rw [hc] at h
    cases h

/-! ## The path utility -/

theorem splitSlash_append (seg rest : Str) (h : '/' ∉ seg) :
    splitSlash (seg ++ '/' :: rest) = seg :: splitSlash rest := by
  induction seg with
  | nil => simp [splitSlash]
  | cons c seg ih =>
    have hc : c ≠ '/' := fun e => h (by simp [e])
    have hs : '/' ∉ seg := fun e => h (by simp [e])
    simp [splitSlash, hc, ih hs]

theorem endsWithSlash_append (a b : Str) (hb : b ≠ []) :
    endsWithSlash (a ++ b) = endsWithSlash b := by
  simp [endsWithSlash, List.getLast?_append_of_ne_nil a hb]

theorem splitSlash_data (P : Str) :
    splitSlash ("/data".toList ++ '/' :: P) = [] :: "data".toList :: splitSlash P := by
  have e : "/data".toList ++ '/' :: P = [] ++ '/' :: ("data".toList ++ '/' :: P) := rfl
  rw [e, splitSlash_append _ _ (by decide), splitSlash_append _ _ (by decide)]

theorem splitSlash_data_slash (P : Str) :
    splitSlash ("/data/".toList ++ '/' :: P) = [] :: "data".toList :: [] :: splitSlash P := by
  have e : "/data/".toList ++ '/' :: P
      = [] ++ '/' :: ("data".toList ++ '/' :: ([] ++ '/' :: P)) := rfl
  rw [e, splitSlash_append _ _ (by decide), splitSlash_append _ _ (by decide),
    splitSlash_append _ _ (by decide)]

theorem normalize_data (P : Str) (hP : P ≠ []) :
    normalize ("/data".toList ++ '/' :: P) =
      (if joinSlash (dataSegs P) = [] then ['/']
       else '/' :: (if endsWithSlash P then joinSlash (dataSegs P) ++ ['/']
                    else joinSlash (dataSegs P))) := by
  have hne : "/data".toList ++ '/' :: P ≠ [] := by simp
  have ht : endsWithSlash ("/data".toList ++ '/' :: P) = endsWithSlash P := by
    have := endsWithSlash_append ("/data".toList ++ ['/']) P hP
    simpa using this
  have hh : ("/data".toList ++ '/' :: P).head? = some '/' := rfl
  unfold normalize
  rw [if_neg hne]
  simp only [hh, ht, splitSlash_data, List.foldl_cons, beq_self_eq_true, Bool.not_true]
  have e1 : normStep false [] [] = [] := by decide
  have e2 : normStep false [] "data".toList = ["data".toList] := by decide
  simp only [e1, e2, dataSegs, if_true]

theorem normalize_data_slash (P : Str) (hP : P ≠ []) :
    normalize ("/data/".toList ++ '/' :: P) = normalize ("/data".toList ++ '/' :: P) := by
  rw [normalize_data P hP]
  have hne : "/data/".toList ++ '/' :: P ≠ [] := by simp
  have ht : endsWithSlash ("/data/".toList ++ '/' :: P) = endsWithSlash P := by
    have := endsWithSlash_append ("/data/".toList ++ ['/']) P hP
    simpa using this
  have hh : ("/data/".toList ++ '/' :: P).head? = some '/' := rfl
  unfold normalize
  rw [if_neg hne]
  simp only [hh, ht, splitSlash_data_slash, List.foldl_cons, beq_self_eq_true, Bool.not_true]
  have e1 : normStep false [] [] = [] := by decide
  have e2 : normStep false [] "data".toList = ["data".toList] := by decide
  have e3 : normStep false ["data".toList] [] = ["data".toList] := by decide
  simp only [e1, e2, e3, dataSegs, if_true]

/-- `openSync`/`rmSync` join with `/data` and `statSync`/`renameSync` with
`/data/`: the same path for every non-empty argument. -/
theorem join_data_slash (P : Str) (hP : P ≠ []) :
    join "/data/".toList P = join "/data".toList P := by
  have h1 : "/data/".toList ≠ [] := by decide
  have h2 : "/data".toList ≠ [] := by decide
  simp only [join, if_neg h1, if_neg h2, if_neg hP]
  exact normalize_data_slash P hP


theorem splitSlash_no_slash (p : Str) : ∀ s ∈ splitSlash p, '/' ∉ s := by
  induction p with
  | nil => simp [splitSlash]
  | cons c cs ih =>
    by_cases hc : c = '/'
    · simp only [splitSlash, hc, if_true]
      intro s hs
      rcases List.mem_cons.mp hs with rfl | hs
      · simp
      · exact ih s hs
    · simp only [splitSlash, hc, if_false]
      cases hsp : splitSlash cs with
      | nil => simp [Ne.symm hc]
      | cons t ts =>
        rw [hsp] at ih
        intro s hs
        rcases List.mem_cons.mp hs with rfl | hs
        · have := ih t (by simp)
          simp [Ne.symm hc, this]
        · exact ih s (by simp [hs])

theorem normStep_ok (a : Bool) (stack : List Str) (seg : Str) (hst : SegsOK stack)
    (hseg : '/' ∉ seg) : SegsOK (normStep a stack seg) := by
  unfold normStep
  split
  · exact hst
  · rename_i h1
    have hne : seg ≠ [] := fun e => h1 (Or.inl e)
    split
    · cases stack with
      | nil =>
        simp only
        split
        · intro s hs
          simp only [List.mem_singleton] at hs
          subst hs
          exact ⟨hne, hseg⟩
        · intro s hs
          cases hs
      | cons top rest =>
        simp only
        split
        · split
          · intro s hs
            rcases List.mem_cons.mp hs with rfl | hs
            · exact ⟨hne, hseg⟩
            · exact hst s hs
          · exact hst
        · intro s hs
          exact hst s (List.mem_cons_of_mem _ hs)
    · intro s hs
      rcases List.mem_cons.mp hs with rfl | hs
      · exact ⟨hne, hseg⟩
      · exact hst s hs

theorem foldl_normStep_ok (a : Bool) (l : List Str) (stack : List Str) (hst : SegsOK stack)
    (hl : ∀ s ∈ l, '/' ∉ s) : SegsOK (l.foldl (normStep a) stack) := by
  induction l generalizing stack with
  | nil => exact hst
  | cons s l ih =>
    simp only [List.foldl_cons]
    exact ih _ (normStep_ok a stack s hst (hl s (by simp)))
      (fun t ht => hl t (List.mem_cons_of_mem _ ht))

theorem joinSlash_last (l : List Str) (hl : SegsOK l) (hne : l ≠ []) :
    joinSlash l ≠ [] ∧ (joinSlash l).getLast? ≠ some '/' := by
  induction l with
  | nil => exact absurd rfl hne
  | cons s l ih =>
    have hs := hl s (by simp)
    cases l with
    | nil =>
      simp only [joinSlash]
      refine ⟨hs.1, ?_⟩
      intro e
      have := List.mem_of_getLast?_eq_some e
      exact hs.2 this
    | cons t ts =>
      have ih2 := ih (fun x hx => hl x (List.mem_cons_of_mem _ hx)) (by simp)
      simp only [joinSlash]
      refine ⟨by simp, ?_⟩
      have e : s ++ '/' :: joinSlash (t :: ts) = (s ++ ['/']) ++ joinSlash (t :: ts) := by simp
      rw [e, List.getLast?_append_of_ne_nil _ ih2.1]
      exact ih2.2

theorem dataSegs_ok (P : Str) : SegsOK (dataSegs P) := by
  have h : SegsOK ((splitSlash P).foldl (normStep false) ["data".toList]) := by
    apply foldl_normStep_ok
    · intro s hs
      simp only [List.mem_singleton] at hs
      subst hs
      exact ⟨by decide, by decide⟩
    · exact splitSlash_no_slash P
  intro s hs
  exact h s (by simpa [dataSegs] using hs)

/-- A path under `/data` that does not end in a separator still does not end
in one after `path.join("/data", P)`. -/
theorem endsWithSlash_join_data (P : Str) (hP : P ≠ []) (hs : endsWithSlash P = false)
    (hq : join "/data".toList P ≠ ['/']) : endsWithSlash (join "/data".toList P) = false := by
  have h2 : "/data".toList ≠ [] := by decide
  have hj : join "/data".toList P = normalize ("/data".toList ++ '/' :: P) := by
    simp only [join, if_neg h2, if_neg hP]
  rw [hj] at hq ⊢
  rw [normalize_data P hP] at hq ⊢
  by_cases hb : joinSlash (dataSegs P) = []
  · rw [if_pos hb] at hq
    exact absurd rfl hq
  · rw [if_neg hb]
    simp only [hs, Bool.false_eq_true, if_false]
    have hne : dataSegs P ≠ [] := by
      intro e
      rw [e] at hb
      exact hb rfl
    have := (joinSlash_last _ (dataSegs_ok P) hne).2
    have e : '/' :: joinSlash (dataSegs P) = ['/'] ++ joinSlash (dataSegs P) := rfl
    rw [e, endsWithSlash_append _ _ hb]
    simpa [endsWithSlash] using this

/-! ## The handle table -/

theorem countP_succ_lt (m : HandleMap) (h : Nat) (hh : m.has h = true) :
    m.countP (fun e => decide (h + 1 ≤ e.1)) < m.countP (fun e => decide (h ≤ e.1)) := by
  induction m with
  | nil => simp [HandleMap.has] at hh
  | cons e m ih =>
    have hmono : m.countP (fun e => decide (h + 1 ≤ e.1)) ≤ m.countP (fun e => decide (h ≤ e.1)) := by
      apply List.countP_mono_left
      intro x _ hx
      simp only [decide_eq_true_eq] at hx ⊢
      omega
    by_cases he : e.1 = h
    · have h1 : decide (h + 1 ≤ e.1) = false := by simp [he]
      have h2 : decide (h ≤ e.1) = true := by simp [he]
      simp only [List.countP_cons, h1, h2]
      simp only [Bool.false_eq_true, if_false, if_true]
      omega
    · have hm : HandleMap.has m h = true := by
        simp only [HandleMap.has, List.any_cons, Bool.or_eq_true, beq_iff_eq] at hh
        rcases hh with hh | hh
        · exact absurd hh he
        · exact hh
      have := ih hm
      by_cases hle : h ≤ e.1
      · have h1 : decide (h + 1 ≤ e.1) = true := by
          simp only [decide_eq_true_eq]; omega
        have h2 : decide (h ≤ e.1) = true := by simp [hle]
        simp only [List.countP_cons, h1, h2, if_true]
        omega
      · have h1 : decide (h + 1 ≤ e.1) = false := by
          simp only [decide_eq_false_iff_not]; omega
        have h2 : decide (h ≤ e.1) = false := by simp [hle]
        simp only [List.countP_cons, h1, h2, Bool.false_eq_true, if_false]
        omega

theorem probeHandle_of_count (m : HandleMap) :
    ∀ (fuel handle : Nat), m.countP (fun e => decide (handle ≤ e.1)) < fuel →
      ∃ h, probeHandle m fuel handle = some h ∧ m.has h = false ∧ handle ≤ h := by
  intro fuel
  induction fuel with
  | zero => intro handle h; omega
  | succ fuel ih =>
    intro handle h
    by_cases hh : m.has handle = true
    · have hlt := countP_succ_lt m handle hh
      obtain ⟨h', e, hn, hle⟩ := ih (handle + 1) (by omega)
      refine ⟨h', ?_, hn, by omega⟩
      simp [probeHandle, hh, e]
    · refine ⟨handle, ?_, by simpa using hh, le_refl _⟩
      simp [probeHandle, hh]

/-- The probing loop of `_getNewFileHandle` stops within `m.length + 1` tests,
at a value that is not a key of the table. -/
theorem probeHandle_isSome (m : HandleMap) (handle : Nat) :
    ∃ h, probeHandle m (m.length + 1) handle = some h ∧ m.has h = false ∧ handle ≤ h := by
  apply probeHandle_of_count
  have := List.countP_le_length (fun e : Nat × HandleInfo => decide (handle ≤ e.1)) (l := m)
  omega

/-- What `_createFile` does when the path does not end in a separator and the
parent directory record is found: a block is allocated and the new record is
appended to the parent's list, stored under the parent's own path. -/
theorem createFile_eq {st : Store} {head : Head} {parent : DirObj} (now : Nat) (q : Str)
    (hends : endsWithSlash q = false)
    (hh : st headKey = some (.head head))
    (hparent : _getDirObj st (some (parse (join "/".toList q)).dir) = .ret parent) :
    _createFile st now q =
      (.ret { name := (parse (join "/".toList q)).base,
              path := some (parse (join "/".toList q)).dir,
              size := 0, utc := now, block := head.nextFileBlockId },
       _setItem
         (_setItem (_setItem st (blockKey head.nextFileBlockId) (.block []))
           headKey (.head { head with nextFileBlockId := head.nextFileBlockId + 1 }))
         (dirKey parent.path)
         (.dir { parent with files := parent.files ++
            [{ name := (parse (join "/".toList q)).base,
               path := some (parse (join "/".toList q)).dir,
               size := 0, utc := now, block := head.nextFileBlockId }] })) := by
  unfold _createFile
  simp only [hends, hparent, Bool.false_eq_true, if_false]
  simp [strBase, _alloc, _getItem, hh]

/-- What `openSync` with `O_CREAT` does on a path that names no file, does not
end in a separator and has a parent directory record. -/
theorem openSync_create_eq {st : Store} {head : Head} {parent : DirObj} (m : HandleMap)
    (tCreate tHandle : Nat) (P : Str)
    (hends : endsWithSlash (join "/data".toList P) = false)
    (hh : st headKey = some (.head head))
    (hnofile : _getFileObj st (some (join "/data".toList P)) = .undefined)
    (hparent :
      _getDirObj st (some (parse (join "/".toList (join "/data".toList P))).dir) = .ret parent) :
    ∃ handle, m.has handle = false ∧
      openSync st m tCreate tHandle P (some O_CREAT) =
        (.ret handle, (_createFile st tCreate (join "/data".toList P)).2,
          m.set handle { path := join "/data".toList P, flags := O_CREAT }) := by
  obtain ⟨h', hp, hnot, -⟩ := probeHandle_isSome m ((tHandle + 114514) % 1919810)
  refine ⟨h', hnot, ?_⟩
  have hinit : _checkIfInited st = true := by simp [_checkIfInited, _getItem, hh]
  have hflag : Nat.land O_CREAT O_CREAT ≠ 0 := by decide
  unfold openSync _getNewFileHandle
  simp only [hinit, Bool.not_true, Bool.false_eq_true, if_false, Option.getD_some, hnofile,
    if_neg hflag, createFile_eq tCreate _ hends hh hparent, hp]

theorem storeOK_setItem_dir {st : Store} (hok : StoreOK st) (d : DirObj) :
    StoreOK (_setItem st (dirKey d.path) (.dir d)) := by
  intro p v h
  by_cases hp : dirKey p = dirKey d.path
  · rw [hp, setItem_same] at h
    cases h
    exact ⟨d, rfl, (dirKey_inj hp).symm⟩
  · rw [setItem_other _ _ hp] at h
    exact hok p v h

theorem storeOK_setItem_head {st : Store} (hok : StoreOK st) (v : Val) :
    StoreOK (_setItem st headKey v) := by
  intro p w h
  rw [setItem_other _ _ (dirKey_ne_headKey p)] at h
  exact hok p w h

theorem storeOK_setItem_block {st : Store} (hok : StoreOK st) (n : Nat) (v : Val) :
    StoreOK (_setItem st (blockKey n) v) := by
  intro p w h
  rw [setItem_other _ _ (dirKey_ne_blockKey p n)] at h
  exact hok p w h

theorem storeOK_empty : StoreOK emptyStore := by
  intro p v h
  cases h

/-- The store written by `_initFileSystem` has well-shaped directory records. -/
theorem storeOK_init : StoreOK (_initFileSystem emptyStore) := by
  have h : _checkIfInited emptyStore = false := rfl
  unfold _initFileSystem
  simp only [h, Bool.false_eq_true, if_false]
  exact storeOK_setItem_dir (d := { path := "/assets".toList, files := [], dirs := [] })
    (storeOK_setItem_dir (d := { path := "/data".toList, files := [], dirs := [] })
      (storeOK_setItem_dir
        (d := { path := "/".toList, files := [],  dirs := ["data".toList, "assets".toList] })
        (storeOK_setItem_head storeOK_empty _)))

theorem storeOK_initFileSystem {st : Store} (hok : StoreOK st) : StoreOK (_initFileSystem st) := by
  unfold _initFileSystem
  split
  · exact hok
  · exact storeOK_setItem_dir (d := { path := "/assets".toList, files := [], dirs := [] })
      (storeOK_setItem_dir (d := { path := "/data".toList, files := [], dirs := [] })
        (storeOK_setItem_dir
          (d := { path := "/".toList, files := [],  dirs := ["data".toList, "assets".toList] })
          (storeOK_setItem_head hok _)))

theorem storeOK_alloc {st : Store} (hok : StoreOK st) : StoreOK (_alloc st).2 := by
  unfold _alloc
  split
  · exact storeOK_setItem_head (storeOK_setItem_block hok _ _) _
  · exact hok

theorem storeOK_createFile {st : Store} (hok : StoreOK st) (now : Nat) (q : Str) :
    StoreOK (_createFile st now q).2 := by
  unfold _createFile
  split
  · exact hok
  · dsimp only
    split
    · exact hok
    · exact hok
    · split
      · exact hok
      · split
        · exact hok
        · have h := storeOK_alloc hok
          revert h
          rcases _alloc st with ⟨r, s⟩
          intro h
          cases r with
          | ret b =>
            rename_i parentDirObj _ _ _
            exact storeOK_setItem_dir h
              { parentDirObj with files := parentDirObj.files ++
                [{ name := (parse (join "/".toList q)).base,
                   path := some (parse (join "/".toList q)).dir,
                   size := 0, utc := now, block := b }] }
          | undefined => exact h
          | throw => exact h

theorem storeOK_openSync {st : Store} (hok : StoreOK st) (m : HandleMap) (tCreate tHandle : Nat)
    (P : Str) (flag : Option Nat) : StoreOK (openSync st m tCreate tHandle P flag).2.1 := by
  have h0 : StoreOK (if (!_checkIfInited st) = true then _initFileSystem st else st) := by
    split
    · exact storeOK_initFileSystem hok
    · exact hok
  revert h0
  unfold openSync
  dsimp only
  generalize (if (!_checkIfInited st) = true then _initFileSystem st else st) = s0
  intro h0
  have h1 : StoreOK
      (_getNewFileHandle s0 m tCreate tHandle (join "/data".toList P)
        (some (flag.getD O_RDONLY))).2.1 := by
    unfold _getNewFileHandle
    dsimp only
    split
    · exact h0
    · split
      · exact h0
      · have hc := storeOK_createFile h0 tCreate (join "/data".toList P)
        revert hc
        rcases _createFile s0 tCreate (join "/data".toList P) with ⟨r, s⟩
        intro hc
        cases r with
        | ret f =>
          dsimp only
          split <;> exact hc
        | undefined => exact hc
        | throw => exact hc
    · split
      · exact h0
      · split <;> exact h0
  revert h1
  rcases _getNewFileHandle s0 m tCreate tHandle (join "/data".toList P)
    (some (flag.getD O_RDONLY)) with ⟨r, s, m2⟩
  intro h1
  cases r <;> exact h1

/-- `_moveFile` writes to the store only on the path that returns `0`. -/
theorem moveFile_store (st : Store) (o n : Str) :
    (_moveFile st o n).2 = st ∨ (_moveFile st o n).1 = .ret 0 := by
  unfold _moveFile
  repeat' split
  all_goals (try dsimp only)
  all_goals (repeat' split)
  all_goals first
    | exact Or.inl rfl
    | exact Or.inr rfl

theorem moveFile_ret (st : Store) (o n : Str) (c : Nat) (h : (_moveFile st o n).1 = .ret c) :
    c = 0 := by
  revert h
  unfold _moveFile
  repeat' split
  all_goals (try dsimp only)
  all_goals (repeat' split)
  all_goals first
    | (intro h; cases h; done)
    | (intro h; simp only [moveFileStore] at h; cases h; rfl)


/-! ## `StoreOK` is kept by every public operation -/

theorem storeOK_setItem_dir_at {st : Store} (hok : StoreOK st) (p : Str) (d : DirObj)
    (h : d.path = p) : StoreOK (_setItem st (dirKey p) (.dir d)) := by
  subst h
  exact storeOK_setItem_dir hok d

theorem storeOK_removeItem {st : Store} (hok : StoreOK st) (k : Str) :
    StoreOK (_removeItem st k) := by
  intro p v h
  unfold _removeItem at h
  split at h
  · cases h
  · exact hok p v h

theorem storeOK_writeFile {st : Store} (hok : StoreOK st) (now : Nat) (f : Option FileObj)
    (bin : List Byte) (o : IOOptions) : StoreOK (_writeFile st now f bin o).2 := by
  unfold _writeFile
  split
  · exact hok
  · dsimp only
    split
    · rename_i parentDirObj _
      split
      · exact hok
      · dsimp only
        refine storeOK_setItem_block (storeOK_setItem_dir_at hok _ _ ?_) _ _
        rfl
    · exact hok

theorem storeOK_writeSync {st : Store} (hok : StoreOK st) (m : HandleMap) (now fd : Nat)
    (buffer : List Byte) (o : IOOptions) : StoreOK (writeSync st m now fd buffer o).2 := by
  unfold writeSync
  split
  · exact hok
  · exact hok
  · exact storeOK_writeFile hok _ _ _ _

theorem storeOK_removeFile {st : Store} (hok : StoreOK st) (p : Option Str) :
    StoreOK (_removeFile st p).2 := by
  unfold _removeFile
  split
  · exact hok
  · exact hok
  · split
    · rename_i parentDirObj _
      dsimp only
      split
      · exact hok
      · dsimp only [_free]
        refine storeOK_removeItem (storeOK_setItem_dir_at hok _ _ ?_) _
        rfl
    · exact hok

theorem storeOK_rmSync {st : Store} (hok : StoreOK st) (a : RmArg) :
    StoreOK (rmSync st a).2 := by
  unfold rmSync
  cases a with
  | str p =>
    have h := storeOK_removeFile hok (some (join "/data".toList p))
    revert h
    dsimp only
    rcases _removeFile st (some (join "/data".toList p)) with ⟨r, s⟩
    intro h
    cases r <;> exact h
  | obj p =>
    have h := storeOK_removeFile hok p
    revert h
    dsimp only
    rcases _removeFile st p with ⟨r, s⟩
    intro h
    cases r <;> exact h

theorem storeOK_moveFileStore {st : Store} (hok : StoreOK st) (f : FileObj)
    (oldParentObj newParentObj : DirObj) (n : Str) :
    StoreOK (moveFileStore st f oldParentObj newParentObj n).2 := by
  unfold moveFileStore
  refine storeOK_setItem_dir_at (storeOK_setItem_dir hok oldParentObj) _ _ ?_
  rfl

theorem storeOK_moveFile {st : Store} (hok : StoreOK st) (o n : Str) :
    StoreOK (_moveFile st o n).2 := by
  unfold _moveFile
  repeat' split
  all_goals (try dsimp only)
  all_goals (repeat' split)
  all_goals first
    | exact hok
    | exact storeOK_moveFileStore hok _ _ _ _

theorem storeOK_renameSync {st : Store} (hok : StoreOK st) (a b : Str) :
    StoreOK (renameSync st a b).2 := by
  unfold renameSync
  split
  · exact hok
  · have h := storeOK_moveFile hok (join "/data/".toList a) (join "/data/".toList b)
    revert h
    rcases _moveFile st (join "/data/".toList a) (join "/data/".toList b) with ⟨r, s⟩
    intro h
    cases r <;> exact h

theorem storeOK_mkdirSync {st : Store} (hok : StoreOK st) (p : Str) :
    StoreOK (mkdirSync st p).2 := by
  have h : StoreOK (_mkdir st p).2 := by
    unfold _mkdir
    dsimp only
    repeat' split
    all_goals first
      | exact hok
      | (refine storeOK_setItem_dir_at hok _ _ ?_; rfl)
  revert h
  unfold mkdirSync
  rcases _mkdir st p with ⟨r, s⟩
  intro h
  cases r <;> exact h

/-! ## The copy loop -/

theorem length_copyLoop (dst src : List Byte) (ds ss n : Nat) :
    (copyLoop dst src ds ss n).length = dst.length := by
  induction n with
  | zero => rfl
  | succ n ih => simp [copyLoop, ih]

/-- After `n` rounds the cells `ds ≤ j < ds + n` inside `dst` hold the source
bytes from `ss` on (`0` past the end of the source); every other cell is as
before. -/
theorem getElem?_copyLoop (dst src : List Byte) (ds ss n j : Nat) :
    (copyLoop dst src ds ss n)[j]? =
      if ds ≤ j ∧ j < ds + n ∧ j < dst.length then some (src.getD (ss + (j - ds)) 0)
      else dst[j]? := by
  induction n with
  | zero =>
    have h : ¬ (ds ≤ j ∧ j < ds + 0 ∧ j < dst.length) := by omega
    simp only [copyLoop, if_neg h]
  | succ n ih =>
    simp only [copyLoop, List.getElem?_set, length_copyLoop, ih]
    by_cases hj : ds + n = j
    · subst hj
      by_cases hl : ds + n < dst.length
      · have h1 : ds ≤ ds + n ∧ ds + n < ds + (n + 1) ∧ ds + n < dst.length := by omega
        simp [hl, h1]
      · have h1 : ¬ (ds ≤ ds + n ∧ ds + n < ds + (n + 1) ∧ ds + n < dst.length) := by omega
        have h2 : dst[ds + n]? = none := by
          apply List.getElem?_eq_none
          omega
        simp [hl, h1, h2]
    · simp only [if_neg hj]
      by_cases h1 : ds ≤ j ∧ j < ds + n ∧ j < dst.length
      · have h2 : ds ≤ j ∧ j < ds + (n + 1) ∧ j < dst.length := by omega
        simp [h1, h2]
      · have h2 : ¬ (ds ≤ j ∧ j < ds + (n + 1) ∧ j < dst.length) := by omega
        simp [h1, h2]

theorem getD_copyLoop (dst src : List Byte) (ds ss n j : Nat) :
    (copyLoop dst src ds ss n).getD j 0 =
      if ds ≤ j ∧ j < ds + n ∧ j < dst.length then src.getD (ss + (j - ds)) 0
      else dst.getD j 0 := by
  rw [List.getD_eq_getElem?_getD, getElem?_copyLoop]
  split
  · rfl
  · rw [List.getD_eq_getElem?_getD]

/-! ## What `_writeFile` stores and `_readFile` reads back -/

theorem newBlock_eq (st : Store) (f : FileObj) (bin : List Byte) (off : Nat) (n : Int)
    (pos : Nat) (hpos : pos ≠ 0) :
    newBlock st f bin off n pos =
      copyLoop
        (copyLoop (List.replicate (max ((oldBlock st f).length : Int) (pos + n)).toNat 0)
          (oldBlock st f) 0 0 (oldBlock st f).length)
        bin pos off (max ((oldBlock st f).length : Int) (pos + n)).toNat := by
  have hmax : ∀ a b : Int, (if a < b then b else a) = max a b := by
    intro a b
    by_cases h : a < b
    · rw [if_pos h, max_eq_right (le_of_lt h)]
    · rw [if_neg h, max_eq_left (not_lt.mp h)]
  unfold newBlock oldBlock
  simp only [hpos, ne_eq, not_false_eq_true, if_true, hmax]

theorem length_newBlock (st : Store) (f : FileObj) (bin : List Byte) (off : Nat) (n : Int)
    (pos : Nat) (hpos : pos ≠ 0) :
    ((newBlock st f bin off n pos).length : Int)
      = max ((oldBlock st f).length : Int) (pos + n) := by
  rw [newBlock_eq st f bin off n pos hpos]
  simp only [length_copyLoop, List.length_replicate]
  omega

/-- From `position` on, the new block holds the source bytes from `offset` on
(`0` past the end of the source), up to the end of the block. -/
theorem getD_newBlock_from_position (st : Store) (f : FileObj) (bin : List Byte) (off : Nat)
    (n : Int) (pos : Nat) (hpos : pos ≠ 0) (i : Nat)
    (hi : pos + i < (newBlock st f bin off n pos).length) :
    (newBlock st f bin off n pos).getD (pos + i) 0 = bin.getD (off + i) 0 := by
  rw [newBlock_eq st f bin off n pos hpos] at hi ⊢
  simp only [length_copyLoop, List.length_replicate] at hi
  rw [getD_copyLoop]
  simp only [length_copyLoop, List.length_replicate]
  rw [if_pos (by omega)]
  simp

/-- Below `position` the new block holds the old block, and `0` where the old
block has ended. -/
theorem getD_newBlock_below_position (st : Store) (f : FileObj) (bin : List Byte) (off : Nat)
    (n : Int) (pos : Nat) (hpos : pos ≠ 0) (j : Nat) (hj : j < pos) :
    (newBlock st f bin off n pos).getD j 0 = (oldBlock st f).getD j 0 := by
  rw [newBlock_eq st f bin off n pos hpos]
  rw [getD_copyLoop, if_neg (by omega), getD_copyLoop]
  simp only [List.length_replicate]
  by_cases hr : j < (oldBlock st f).length
  · rw [if_pos (by omega)]
    simp
  · rw [if_neg (by omega)]
    rw [List.getD_eq_getElem?_getD, List.getD_eq_getElem?_getD,
      List.getElem?_eq_none (l := oldBlock st f) (by omega)]
    simp only [List.getElem?_replicate]
    split <;> rfl

/-- A successful `_writeFile` returns the clamped length and leaves `newBlock`
under the block key. -/
theorem writeFile_ret {st st2 : Store} {now : Nat} {f : FileObj} {bin : List Byte}
    {o : IOOptions} {n : Int} (h : _writeFile st now (some f) bin o = (.ret n, st2)) :
    n = (if ((o.length.getD MAX_SAFE_INTEGER : Nat) : Int)
            > (bin.length : Int) - (o.offset.getD 0 : Nat)
          then (bin.length : Int) - (o.offset.getD 0 : Nat)
          else ((o.length.getD MAX_SAFE_INTEGER : Nat) : Int)) ∧
    st2 (blockKey f.block)
      = some (.block (newBlock st f bin (o.offset.getD 0) n (o.position.getD 0))) := by
  unfold _writeFile at h
  dsimp only at h
  split at h
  · split at h
    · cases h
    · simp only [Prod.mk.injEq, Res.ret.injEq] at h
      obtain ⟨h1, h2⟩ := h
      subst h2
      subst h1
      exact ⟨rfl, setItem_same _ _ _⟩
  · cases h


/-- Write then read with `position ≠ 0`: when `_writeFile` succeeds with
`{offset, length, position}` and returns `n`, `_readFile` of the same block
into a destination of the same capacity with the same options returns `n`, and
the destination bytes `[offset, offset + n)` are the source bytes
`[offset, offset + n)`.  With `position = 0` the block is the whole source
buffer and the bytes read back are the source bytes `[0, n)`. -/
theorem roundtrip_of_position_ne_zero {st st2 : Store} {now : Nat} {f f2 : FileObj}
    {bin dst : List Byte} {off len pos : Nat} {n : Int}
    (hpos : pos ≠ 0) (hdst : dst.length = bin.length) (hf2 : f2.block = f.block)
    (hw : _writeFile st now (some f) bin
        { offset := some off, length := some len, position := some pos } = (.ret n, st2)) :
    ∃ dst2, _readFile st2 (some f2) dst
        { offset := some off, length := some len, position := some pos } = .ret (dst2, n) ∧
      ∀ i : Nat, (i : Int) < n → dst2.getD (off + i) 0 = bin.getD (off + i) 0 := by
  obtain ⟨hn, hb⟩ := writeFile_ret hw
  simp only [Option.getD_some] at hn hb
  have hlen := length_newBlock st f bin off n pos hpos
  have hcount :
      (if (if (len : Int) ≤ ((newBlock st f bin off n pos).length : Int) - pos then (len : Int)
            else ((newBlock st f bin off n pos).length : Int)) > (dst.length : Int) - off
        then (dst.length : Int) - off
        else (if (len : Int) ≤ ((newBlock st f bin off n pos).length : Int) - pos
            then (len : Int) else ((newBlock st f bin off n pos).length : Int))) = n := by
    rw [hdst]
    split_ifs at hn ⊢ <;> omega
  refine ⟨copyLoop dst (newBlock st f bin off n pos) off pos n.toNat, ?_, ?_⟩
  · unfold _readFile
    simp only [hf2, _getItem, hb, Option.getD_some, hcount]
  · intro i hi
    have hn2 : n ≤ (bin.length : Int) - off := by
      split_ifs at hn <;> omega
    rw [getD_copyLoop, if_pos (by omega)]
    have e : pos + (off + i - off) = pos + i := by omega
    rw [e]
    exact getD_newBlock_from_position st f bin off n pos hpos i (by omega)

/-- Append with `position = s ≠ 0`, the size of the old block: after a
successful `_writeFile` that returns `n` the block has `s + n` bytes and its
first `s` bytes are the old block.  With `s = 0` the block is the whole source
buffer, whatever `offset` and `length` are. -/
theorem append_of_position_ne_zero {st st2 : Store} {now : Nat} {f : FileObj}
    {bin : List Byte} {off len pos : Nat} {n : Int}
    (hpos : pos ≠ 0) (hs : pos = (oldBlock st f).length) (hoff : off ≤ bin.length)
    (hw : _writeFile st now (some f) bin
        { offset := some off, length := some len, position := some pos } = (.ret n, st2)) :
    ∃ blk, st2 (blockKey f.block) = some (.block blk) ∧
      (blk.length : Int) = pos + n ∧
      ∀ j, j < pos → blk.getD j 0 = (oldBlock st f).getD j 0 := by
  obtain ⟨hn, hb⟩ := writeFile_ret hw
  simp only [Option.getD_some] at hn hb
  have hlen := length_newBlock st f bin off n pos hpos
  refine ⟨_, hb, ?_, ?_⟩
  · rw [hlen]
    split_ifs at hn <;> omega
  · intro j hj
    exact getD_newBlock_below_position st f bin off n pos hpos j hj

/-! ## The same operations where the code does what C1, C2, C7 say -/

set_option maxRecDepth 100000 in
/-- With `position` `2` the branch `if (position != 0)` of `_writeFile` copies
the source slice from `offset`: writing `[7, 8, 9]` with
`{offset: 1, length: 2, position: 2}` into the file that holds `[1, 2, 3, 4]`
gives `[1, 2, 8, 9]`, and reading with the same options returns the two bytes
at the same offset of the destination. -/
theorem roundtrip_at_position_two :
    (writeSync filledA.2 openedA.2.2 400 114714 [7, 8, 9]
        { offset := some 1, length := some 2, position := some 2 }).1 = .ret 2 ∧
    (writeSync filledA.2 openedA.2.2 400 114714 [7, 8, 9]
        { offset := some 1, length := some 2, position := some 2 }).2 (blockKey 1)
      = some (.block [1, 2, 8, 9]) ∧
    readSync
        (writeSync filledA.2 openedA.2.2 400 114714 [7, 8, 9]
          { offset := some 1, length := some 2, position := some 2 }).2
        openedA.2.2 114714 [0, 0, 0]
        { offset := some 1, length := some 2, position := some 2 }
      = .ret ([0, 8, 9], 2) := by
  decide

set_option maxRecDepth 100000 in
/-- An append to a block that is not empty: writing `[5, 6, 7]` with
`{offset: 0, length: 2, position: 4}` into the file that holds `[1, 2, 3, 4]`
returns `2` and leaves the six bytes `[1, 2, 3, 4, 5, 6]`. -/
theorem append_at_position_four :
    (writeSync filledA.2 openedA.2.2 400 114714 [5, 6, 7]
        { offset := some 0, length := some 2, position := some 4 }).1 = .ret 2 ∧
    (writeSync filledA.2 openedA.2.2 400 114714 [5, 6, 7]
        { offset := some 0, length := some 2, position := some 4 }).2 (blockKey 1)
      = some (.block [1, 2, 3, 4, 5, 6]) ∧
    statSync
        (writeSync filledA.2 openedA.2.2 400 114714 [5, 6, 7]
          { offset := some 0, length := some 2, position := some 4 }).2 "a".toList
      = .ret { size := 6, mtimeMs := 400 } := by
  decide

set_option maxRecDepth 100000 in
/-- Removing a file that was never renamed: `rmSync("a")` after `openedA`
returns `0`, `statSync` then finds no file, the block key holds no value and
`/data` has no file record left. -/
theorem rm_of_created_file :
    (rmSync openedA.2.1 (.str "a".toList)).1 = .ret 0 ∧
    statSync (rmSync openedA.2.1 (.str "a".toList)).2 "a".toList = .undefined ∧
    (rmSync openedA.2.1 (.str "a".toList)).2 (blockKey 1) = none ∧
    (rmSync openedA.2.1 (.str "a".toList)).2 (dirKey "/data".toList)
      = some (.dir { path := "/data".toList, files := [], dirs := [] }) := by
  decide

/-! ## C1 – C4: reading and writing -/

set_option maxRecDepth 100000 in
/-- C1 (write/read round trip) at the input where the code breaks it.  On the
file `a` just created, `writeSync` of the source buffer `[1, 2]` with
`{offset: 1, length: 1, position: 0}` returns `1`; `readSync` on the same
handle into `[0, 0]` with the same options returns `1` too, but the byte it
puts at index `1` of the destination is `1`, the source byte at index `0`,
while the source byte at index `1` is `2`: with `position` `0` the whole source
buffer is stored and `offset` is not applied. -/
theorem C1_roundtrip_breaks_at_position_zero :
    openedA.1 = .ret 114714 ∧
    (writeSync openedA.2.1 openedA.2.2 300 114714 [1, 2]
        { offset := some 1, length := some 1, position := some 0 }).1 = .ret 1 ∧
    readSync
        (writeSync openedA.2.1 openedA.2.2 300 114714 [1, 2]
          { offset := some 1, length := some 1, position := some 0 }).2
        openedA.2.2 114714 [0, 0]
        { offset := some 1, length := some 1, position := some 0 }
      = .ret ([0, 1], 1) ∧
    ([1, 2] : List Byte).getD 1 0 = 2 := by
  decide

set_option maxRecDepth 100000 in
/-- C2 (pure append) at the input where the code breaks it.  The file `a` just
created has an empty block (`s = 0`).  `writeSync` of the source buffer
`[1, 2, 3]` with `{offset: 0, length: 1, position: 0}` returns the clamped
length `n = 1`, but afterwards `statSync` reports size `3` and the block holds
the whole source buffer, not `s + n = 1` byte. -/
theorem C2_append_to_empty_file_stores_whole_buffer :
    openedA.2.1 (blockKey 1) = some (.block []) ∧
    statSync openedA.2.1 "a".toList = .ret { size := 0, mtimeMs := 100 } ∧
    (writeSync openedA.2.1 openedA.2.2 300 114714 [1, 2, 3]
        { offset := some 0, length := some 1, position := some 0 }).1 = .ret 1 ∧
    statSync
        (writeSync openedA.2.1 openedA.2.2 300 114714 [1, 2, 3]
          { offset := some 0, length := some 1, position := some 0 }).2 "a".toList
      = .ret { size := 3, mtimeMs := 300 } ∧
    (writeSync openedA.2.1 openedA.2.2 300 114714 [1, 2, 3]
        { offset := some 0, length := some 1, position := some 0 }).2 (blockKey 1)
      = some (.block [1, 2, 3]) := by
  decide

set_option maxRecDepth 100000 in
/-- C3 (read byte count) at inputs where the code breaks it.  The block of
file `a` holds `B = 4` bytes and the destination has capacity `10`.  With
`{offset: 0, length: 10, position: 2}` `readSync` reports `4` bytes, where
`min(L, B - position, C - offset) = 2`; with `position: 4` (the end of the
block) it reports `4` bytes again, where the claim says `0`.  The bytes past
the end of the block are copied as `0`. -/
theorem C3_read_count_ignores_position :
    filledA.2 (blockKey 1) = some (.block [1, 2, 3, 4]) ∧
    readSync filledA.2 openedA.2.2 114714 [9, 9, 9, 9, 9, 9, 9, 9, 9, 9]
        { offset := some 0, length := some 10, position := some 2 }
      = .ret ([3, 4, 0, 0, 9, 9, 9, 9, 9, 9], 4) ∧
    readSync filledA.2 openedA.2.2 114714 [9, 9, 9, 9, 9, 9, 9, 9, 9, 9]
        { offset := some 0, length := some 10, position := some 4 }
      = .ret ([0, 0, 0, 0, 9, 9, 9, 9, 9, 9], 4) := by
  decide

set_option maxRecDepth 100000 in
/-- C4 (in-place overwrite) at inputs where the code breaks it.  The block of
file `a` holds `[1, 2, 3, 4]`.  Writing the one-byte source `[9]` with
`{offset: 0, length: 1, position: 1}` returns `1` and leaves the block
`[1, 9, 0, 0]`: the bytes at indices `2` and `3`, outside
`[position, position + length)`, are overwritten.  Writing it with
`position: 0` leaves the one-byte block `[9]`: the block no longer has `4`
bytes. -/
theorem C4_overwrite_changes_bytes_after_the_slice :
    filledA.2 (blockKey 1) = some (.block [1, 2, 3, 4]) ∧
    (writeSync filledA.2 openedA.2.2 400 114714 [9]
        { offset := some 0, length := some 1, position := some 1 }).1 = .ret 1 ∧
    (writeSync filledA.2 openedA.2.2 400 114714 [9]
        { offset := some 0, length := some 1, position := some 1 }).2 (blockKey 1)
      = some (.block [1, 9, 0, 0]) ∧
    (writeSync filledA.2 openedA.2.2 400 114714 [9]
        { offset := some 0, length := some 1, position := some 0 }).1 = .ret 1 ∧
    (writeSync filledA.2 openedA.2.2 400 114714 [9]
        { offset := some 0, length := some 1, position := some 0 }).2 (blockKey 1)
      = some (.block [9]) := by
  decide

/-! ## C5: create, then stat -/

theorem checkIfInited_init (st : Store) : _checkIfInited (_initFileSystem st) = true := by
  by_cases hi : _checkIfInited st = true
  · simp [_initFileSystem, hi]
  · have hi2 : _checkIfInited st = false := by simpa using hi
    unfold _initFileSystem
    simp only [hi2, Bool.false_eq_true, if_false]
    simp only [_checkIfInited, _getItem, setItem_other _ _ (headKey_ne_dirKey _), setItem_same,
      Option.isSome_some]

/-- The value `openSync` continues with after its first statement,
`if (!_checkIfInited()) _initFileSystem();`. -/
theorem openSync_init (st : Store) (m : HandleMap) (tCreate tHandle : Nat) (P : Str)
    (flag : Option Nat) :
    openSync st m tCreate tHandle P flag
      = openSync (_initFileSystem st) m tCreate tHandle P flag := by
  have hst : (if (!_checkIfInited st) = true then _initFileSystem st else st)
      = _initFileSystem st := by
    by_cases hi : _checkIfInited st = true
    · simp [hi, _initFileSystem]
    · simp [hi]
  unfold openSync
  simp only [hst, checkIfInited_init, Bool.not_true, Bool.false_eq_true, if_false]

/-- Create then stat in a store where the parent directory record is found. -/
theorem create_then_stat (st : Store) (m : HandleMap) (tCreate tHandle : Nat) (P : Str)
    (parent : DirObj)
    (hok : StoreOK st)
    (hunder : ("/data/".toList).isPrefixOf (join "/data".toList P) = true)
    (hsep : endsWithSlash P = false)
    (hnofile : _getFileObj st (some (join "/data".toList P)) = .undefined)
    (hparent :
      _getDirObj st (some (parse (join "/".toList (join "/data".toList P))).dir)
        = .ret parent) :
    ∃ handle, m.has handle = false ∧
      (openSync st m tCreate tHandle P (some O_CREAT)).1 = .ret handle ∧
      statSync (openSync st m tCreate tHandle P (some O_CREAT)).2.1 P
        = .ret { size := 0, mtimeMs := tCreate } := by
  have hP : P ≠ [] := by
    intro e; subst e; revert hunder; decide
  have hq1 : join "/data".toList P ≠ ['/'] := by
    intro e; rw [e] at hunder; revert hunder; decide
  have hends := endsWithSlash_join_data P hP hsep hq1
  obtain ⟨head, hh, hd⟩ := getDirObj_ret hparent
  obtain ⟨d2, hd2, hpath⟩ := hok _ _ hd
  cases hd2
  obtain ⟨handle, hnot, hopen⟩ :=
    openSync_create_eq m tCreate tHandle P hends hh hnofile hparent
  refine ⟨handle, hnot, by rw [hopen], ?_⟩
  rw [hopen, createFile_eq tCreate _ hends hh hparent]
  have hfind : parent.files.find?
      (fun obj => decide (obj.name = (parse (join "/".toList (join "/data".toList P))).base))
      = none := by
    unfold _getFileObj at hnofile
    simp only [hends, hparent, Bool.false_eq_true, if_false] at hnofile
    split at hnofile
    · cases hnofile
    · assumption
  unfold statSync
  rw [join_data_slash P hP]
  unfold _getFileObj
  simp only [hends, Bool.false_eq_true, if_false]
  rw [@getDirObj_of_head _ { head with nextFileBlockId := head.nextFileBlockId + 1 }
    (by rw [setItem_other _ _ (headKey_ne_dirKey _)]; simp)]
  simp only [← hpath, setItem_same, List.find?_append, hfind, Option.none_or]
  simp

/-- C5 (create then stat).  Let `P` be a path under `/data` (the joined path
`path.join("/data", P)` starts with `/data/`) that does not end in a path
separator, names no file (`_getFileObj` returns `undefined`) and whose parent
directory record exists; the two lookups are made in the store as `openSync`
sees it after its initialisation step (`_initFileSystem st`, which is `st` itself
once the file system is initialised), and the directory records of `st` are
well shaped.  Then `openSync({path: P, flag: O_CREAT})` returns a handle, one
that was not in the handle table, and `statSync({path: P})` in the resulting
store returns a record of size `0` (with the creation time as `mtimeMs`). -/
theorem C5_create_then_stat (st : Store) (m : HandleMap) (tCreate tHandle : Nat) (P : Str)
    (parent : DirObj)
    (hok : StoreOK st)
    (hunder : ("/data/".toList).isPrefixOf (join "/data".toList P) = true)
    (hsep : endsWithSlash P = false)
    (hnofile : _getFileObj (_initFileSystem st) (some (join "/data".toList P)) = .undefined)
    (hparent :
      _getDirObj (_initFileSystem st)
          (some (parse (join "/".toList (join "/data".toList P))).dir)
        = .ret parent) :
    ∃ handle, m.has handle = false ∧
      (openSync st m tCreate tHandle P (some O_CREAT)).1 = .ret handle ∧
      statSync (openSync st m tCreate tHandle P (some O_CREAT)).2.1 P
        = .ret { size := 0, mtimeMs := tCreate } := by
  rw [openSync_init]
  exact create_then_stat (_initFileSystem st) m tCreate tHandle P parent
    (storeOK_initFileSystem hok) hunder hsep hnofile hparent

set_option maxRecDepth 100000 in
/-- C5 at a concrete input: the first call of all, creating `a` on the empty
store with an empty handle table. -/
theorem C5_create_then_stat_witness :
    ∃ handle, HandleMap.has [] handle = false ∧
      (openSync emptyStore [] 100 200 "a".toList (some O_CREAT)).1 = .ret handle ∧
      statSync (openSync emptyStore [] 100 200 "a".toList (some O_CREAT)).2.1 "a".toList
        = .ret { size := 0, mtimeMs := 100 } :=
  C5_create_then_stat emptyStore [] 100 200 "a".toList
    { path := "/data".toList, files := [], dirs := [] } storeOK_empty
    (by decide) (by decide) (by decide) (by decide)

/-! ## C6: failing opens -/

set_option maxRecDepth 100000 in
/-- C6 as stated fails on a store that is not initialised yet: `openSync` with
`O_RDONLY` on `x` in the empty store throws and adds no handle, but the store is
not left unchanged, because `openSync` initialises the file system before it
looks the path up: the head record is there after the call. -/
theorem C6_failed_open_initialises_empty_store :
    emptyStore headKey = none ∧
    (openSync emptyStore [] 100 200 "x".toList (some O_RDONLY)).1 = .throw ∧
    (openSync emptyStore [] 100 200 "x".toList (some O_RDONLY)).2.2 = [] ∧
    (openSync emptyStore [] 100 200 "x".toList (some O_RDONLY)).2.1 headKey
      = some (.head { root := "/".toList, nextFileBlockId := 1 }) := by
  decide

/-- C6, amended (open failure cases).  `openSync` with flag `O_CREAT | O_EXCL`
on a path that names a file throws and leaves the store and the handle table
unchanged.  `openSync` with flag `O_RDONLY` on a path that names no file
(after the initialisation the call starts with) throws, leaves the handle
table unchanged and leaves the store as `_initFileSystem` leaves it: unchanged
when the file system was initialised already, and with no block key written
in any case. -/
theorem C6_open_failures (st : Store) (m : HandleMap) (tCreate tHandle : Nat) (P : Str) :
    ((∃ f, _getFileObj st (some (join "/data".toList P)) = .ret f) →
      openSync st m tCreate tHandle P (some (O_CREAT ||| O_EXCL)) = (.throw, st, m)) ∧
    (_getFileObj (_initFileSystem st) (some (join "/data".toList P)) = .undefined →
      openSync st m tCreate tHandle P (some O_RDONLY) = (.throw, _initFileSystem st, m)) ∧
    (_checkIfInited st = true → _initFileSystem st = st) ∧
    (∀ n, _initFileSystem st (blockKey n) = st (blockKey n)) := by
  refine ⟨?_, ?_, ?_, ?_⟩
  · rintro ⟨f, hf⟩
    obtain ⟨head, hh⟩ := head_of_getFileObj hf
    have hinit : _checkIfInited st = true := by simp [_checkIfInited, _getItem, hh]
    have h1 : Nat.land (O_CREAT ||| O_EXCL) O_CREAT ≠ 0 := by decide
    have h2 : Nat.land (O_CREAT ||| O_EXCL) O_EXCL ≠ 0 := by decide
    unfold openSync _getNewFileHandle
    simp only [hinit, Bool.not_true, Bool.false_eq_true, if_false, Option.getD_some, hf]
    rw [if_pos ⟨h1, h2⟩]
  · intro hf
    have hst : (if (!_checkIfInited st) = true then _initFileSystem st else st)
        = _initFileSystem st := by
      by_cases hi : _checkIfInited st = true
      · simp [hi, _initFileSystem]
      · simp [hi]
    have h1 : Nat.land O_RDONLY O_CREAT = 0 := by decide
    unfold openSync _getNewFileHandle
    simp only [hst, Option.getD_some, hf, h1, if_true]
  · intro hi
    simp [_initFileSystem, hi]
  · intro n
    unfold _initFileSystem
    split
    · rfl
    · simp only [setItem_other _ _ (blockKey_ne_dirKey n _),
        setItem_other _ _ (blockKey_ne_headKey n)]

set_option maxRecDepth 100000 in
/-- C6, amended, at concrete inputs: in the store that holds the file `a`,
an exclusive create of `a` and a read-only open of `x` both throw and change
nothing. -/
theorem C6_open_failures_witness :
    openSync openedA.2.1 openedA.2.2 500 600 "a".toList (some (O_CREAT ||| O_EXCL))
      = (.throw, openedA.2.1, openedA.2.2) ∧
    openSync openedA.2.1 openedA.2.2 500 600 "x".toList (some O_RDONLY)
      = (.throw, _initFileSystem openedA.2.1, openedA.2.2) ∧
    _initFileSystem openedA.2.1 = openedA.2.1 :=
  ⟨(C6_open_failures openedA.2.1 openedA.2.2 500 600 "a".toList).1
      ⟨{ name := "a".toList, path := some "/data".toList, size := 0, utc := 100, block := 1 },
        by decide⟩,
    (C6_open_failures openedA.2.1 openedA.2.2 500 600 "x".toList).2.1 (by decide),
    (C6_open_failures openedA.2.1 openedA.2.2 500 600 "x".toList).2.2.1 (by decide)⟩

/-! ## C7, C8: files that were renamed -/

set_option maxRecDepth 100000 in
/-- C7 (remove) at an input where the code breaks it.  After
`openSync({path: "a", flag: O_CREAT})` and `renameSync({oldPath: "a", newPath: "b"})`
(which returns `0`) the file exists at `b`: `statSync` returns its record, and
the record in `/data` has no `path` field, `_moveFile` having set it to
`newPathLike.path`.  `rmSync("b")` then throws instead of returning `0`
(`_getDirObj(undefined)` is `undefined` in `_removeFile`), and the file and its
block are still there. -/
theorem C7_rm_throws_on_renamed_file :
    renamedAB.1 = .ret 0 ∧
    statSync renamedAB.2 "b".toList = .ret { size := 0, mtimeMs := 100 } ∧
    _getFileObj renamedAB.2 (some "/data/b".toList)
      = .ret { name := "b".toList, path := none, size := 0, utc := 100, block := 1 } ∧
    (rmSync renamedAB.2 (.str "b".toList)).1 = .throw ∧
    statSync (rmSync renamedAB.2 (.str "b".toList)).2 "b".toList
      = .ret { size := 0, mtimeMs := 100 } ∧
    (rmSync renamedAB.2 (.str "b".toList)).2 (blockKey 1) = some (.block []) := by
  decide

set_option maxRecDepth 100000 in
/-- C8 (rename) at an input where the code breaks it.  After
`openSync({path: "a", flag: O_CREAT})` and `renameSync({oldPath: "a", newPath: "b"})`
the file exists at `b`, the path `c` names no file and its parent directory
`/data` exists, but `renameSync({oldPath: "b", newPath: "c"})` throws instead
of returning `0` (`oldParentObj` is `undefined` in `_moveFile`), and
`statSync` still finds the file at `b` and none at `c`. -/
theorem C8_rename_throws_on_renamed_file :
    renamedAB.1 = .ret 0 ∧
    statSync renamedAB.2 "a".toList = .undefined ∧
    statSync renamedAB.2 "b".toList = .ret { size := 0, mtimeMs := 100 } ∧
    statSync renamedAB.2 "c".toList = .undefined ∧
    _getDirObj renamedAB.2 (some (parse "/data/c".toList).dir)
      = .ret { path := "/data".toList,
               files := [{ name := "b".toList, path := none, size := 0, utc := 100,
                           block := 1 }],
               dirs := [] } ∧
    (renameSync renamedAB.2 "b".toList "c".toList).1 = .throw ∧
    statSync (renameSync renamedAB.2 "b".toList "c".toList).2 "b".toList
      = .ret { size := 0, mtimeMs := 100 } ∧
    statSync (renameSync renamedAB.2 "b".toList "c".toList).2 "c".toList = .undefined := by
  decide

/-! ## C9: failing renames -/


theorem renameSync_store (st : Store) (a b : Str)
    (h : (renameSync st a b).1 ≠ .ret 0) : (renameSync st a b).2 = st := by
  unfold renameSync at h ⊢
  split
  · rfl
  · rcases moveFile_store st (join "/data/".toList a) (join "/data/".toList b) with hs | hr
    · revert hs
      rcases hm : _moveFile st (join "/data/".toList a) (join "/data/".toList b) with ⟨r, s⟩
      intro hs
      simp only at hs
      subst hs
      cases r <;> rfl
    · exfalso
      apply h
      rw [if_neg (by assumption)]
      revert hr
      rcases hm : _moveFile st (join "/data/".toList a) (join "/data/".toList b) with ⟨r, s⟩
      intro hr
      simp only at hr
      subst hr
      rfl

/-- `_moveFile` returns `undefined` and leaves the store alone when the
destination names a file, the source names none, or the directory the file
would go to has no record. -/
theorem moveFile_undefined (st : Store) (o n : Str) (hok : StoreOK st)
    (hfail : (∃ f, _getFileObj st (some n) = .ret f) ∨
      _getFileObj st (some o) = .undefined ∨
      _getDirObj st (some (if endsWithSlash n then n else (parse n).dir)) = .undefined) :
    _moveFile st o n = (.undefined, st) := by
  rcases hfail with ⟨f, hf⟩ | hsrc | hdir
  · obtain ⟨head, hh⟩ := head_of_getFileObj hf
    have h1 := getFileObj_ne_throw hok hh (some o)
    unfold _moveFile
    cases ho : _getFileObj st (some o) with
    | throw => exact absurd ho h1
    | undefined => rfl
    | ret g => simp only [hf]
  · unfold _moveFile
    simp only [hsrc]
  · obtain ⟨head, hh⟩ := head_of_getDirObj (by rw [hdir]; simp)
    have h1 := getFileObj_ne_throw hok hh (some o)
    have h2 := getFileObj_ne_throw hok hh (some n)
    unfold _moveFile
    cases ho : _getFileObj st (some o) with
    | throw => exact absurd ho h1
    | undefined => rfl
    | ret g =>
      cases hn : _getFileObj st (some n) with
      | throw => exact absurd hn h2
      | ret g2 => rfl
      | undefined =>
        have h3 := getDirObj_ne_throw hok hh g.path
        simp only
        cases hp : _getDirObj st g.path with
        | throw => exact absurd hp h3
        | undefined =>
          simp only
          by_cases he : endsWithSlash n = true
          · simp only [he, if_true] at hdir ⊢
            simp only [hdir]
          · have he2 : endsWithSlash n = false := by simpa using he
            simp only [he2, Bool.false_eq_true, if_false] at hdir ⊢
            simp only [hdir]
        | ret od =>
          simp only
          by_cases he : endsWithSlash n = true
          · simp only [he, if_true] at hdir ⊢
            simp only [hdir]
          · have he2 : endsWithSlash n = false := by simpa using he
            simp only [he2, Bool.false_eq_true, if_false] at hdir ⊢
            simp only [hdir]

/-- Failing renames on an initialised file system.  In a store with
well-shaped directory records: whenever `renameSync` does not return `0` the
store is exactly the store before the call; and when the lookups of the code
find a file at the destination path, or find no file at the source path, or
find no record of the directory the file would be moved to, `renameSync`
returns a non-zero code and the store is unchanged.  (A lookup that finds
something or nothing has found a head record.) -/
theorem rename_failure_with_head (st : Store) (oldPath newPath : Str) (hok : StoreOK st) :
    ((renameSync st oldPath newPath).1 ≠ .ret 0 → (renameSync st oldPath newPath).2 = st) ∧
    (((∃ f, _getFileObj st (some (join "/data/".toList newPath)) = .ret f) ∨
        _getFileObj st (some (join "/data/".toList oldPath)) = .undefined ∨
        _getDirObj st (some (if endsWithSlash (join "/data/".toList newPath)
            then join "/data/".toList newPath
            else (parse (join "/data/".toList newPath)).dir)) = .undefined) →
      ∃ code : Nat, code ≠ 0 ∧ renameSync st oldPath newPath = (.ret code, st)) := by
  refine ⟨renameSync_store st oldPath newPath, ?_⟩
  intro hfail
  unfold renameSync
  split
  · exact ⟨ARG_TYPE_ERROR, by decide, rfl⟩
  · rw [moveFile_undefined st _ _ hok hfail]
    exact ⟨OPERATION_FAILURE, by decide, rfl⟩

set_option maxRecDepth 100000 in
/-- The same at concrete inputs, in the store that holds the file `a`:
renaming `a` onto itself (the destination names a file), renaming the missing
`x`, and renaming `a` into the missing directory `nodir` all return
`OPERATION_FAILURE` and leave the store as it was. -/
theorem rename_failure_with_head_at_a :
    (∃ code : Nat, code ≠ 0 ∧
      renameSync openedA.2.1 "a".toList "a".toList = (.ret code, openedA.2.1)) ∧
    (∃ code : Nat, code ≠ 0 ∧
      renameSync openedA.2.1 "x".toList "y".toList = (.ret code, openedA.2.1)) ∧
    (∃ code : Nat, code ≠ 0 ∧
      renameSync openedA.2.1 "a".toList "nodir/a".toList = (.ret code, openedA.2.1)) :=
  ⟨(rename_failure_with_head openedA.2.1 "a".toList "a".toList
      (storeOK_openSync storeOK_empty _ _ _ _ _)).2
      (Or.inl ⟨{ name := "a".toList, path := some "/data".toList, size := 0, utc := 100,
                 block := 1 }, by decide⟩),
    (rename_failure_with_head openedA.2.1 "x".toList "y".toList
      (storeOK_openSync storeOK_empty _ _ _ _ _)).2 (Or.inr (Or.inl (by decide))),
    (rename_failure_with_head openedA.2.1 "a".toList "nodir/a".toList
      (storeOK_openSync storeOK_empty _ _ _ _ _)).2 (Or.inr (Or.inr (by decide)))⟩

/-- Without a head record a file lookup throws: `JSON.parse` of the missing
head record in `_getDirObj`, whose guard `if (!_checkIfInited)` never runs the
initialisation. -/
theorem getFileObj_throw_of_no_head {st : Store} (hh : ∀ head, st headKey ≠ some (.head head))
    (p : Str) (hp : endsWithSlash p = false) : _getFileObj st (some p) = .throw := by
  have hd : ∀ q, _getDirObj st (some q) = .throw := by
    intro q
    unfold _getDirObj
    dsimp only [_getItem]
    split
    · rename_i head hhead
      exact absurd hhead (hh head)
    · rfl
  unfold _getFileObj
  simp only [hp, Bool.false_eq_true, if_false, hd]

/-- Without a head record `renameSync` throws and returns no code, whatever
the paths name, and leaves the store as it is. -/
theorem renameSync_throw_of_no_head {st : Store} (hh : ∀ head, st headKey ≠ some (.head head))
    (a b : Str) (ha : endsWithSlash a = false) (hb : endsWithSlash b = false)
    (hja : endsWithSlash (join "/data/".toList a) = false) :
    renameSync st a b = (.throw, st) := by
  unfold renameSync _moveFile
  simp only [ha, hb, Bool.or_self, Bool.false_eq_true, if_false,
    getFileObj_throw_of_no_head hh _ hja]

/-- Without a head record `rmSync` throws and returns no code. -/
theorem rmSync_throw_of_no_head {st : Store} (hh : ∀ head, st headKey ≠ some (.head head))
    (a : Str) (hja : endsWithSlash (join "/data".toList a) = false) :
    rmSync st (.str a) = (.throw, st) := by
  unfold rmSync _removeFile
  simp only [getFileObj_throw_of_no_head hh _ hja]

set_option maxRecDepth 100000 in
/-- C9 (rename is atomic on failure) where the code breaks it.  On the store
with no key set no file exists, and `renameSync({oldPath: "a", newPath: "b"})`
does not return a non-zero code: it throws, out of `JSON.parse` of the missing
head record, and the store still has no head record.  The same happens on the
store left by `_resetFileSystem()`.  After
`openSync({path: "a", flag: O_CREAT})` and a successful
`renameSync({oldPath: "a", newPath: "b"})`, the call
`renameSync({oldPath: "b", newPath: "c"})` does not return success and returns
no code either: it throws.  In each case the store is as it was. -/
theorem C9_rename_throws_instead_of_returning_a_code :
    _checkIfInited emptyStore = false ∧
    emptyStore (dirKey "/data".toList) = none ∧
    (renameSync emptyStore "a".toList "b".toList).1 = .throw ∧
    (∀ code, (renameSync emptyStore "a".toList "b".toList).1 ≠ .ret code) ∧
    (renameSync emptyStore "a".toList "b".toList).2 headKey = none ∧
    _checkIfInited resetSubF = false ∧
    (renameSync resetSubF "a".toList "b".toList).1 = .throw ∧
    (∀ code, (renameSync resetSubF "a".toList "b".toList).1 ≠ .ret code) ∧
    renamedAB.1 = .ret 0 ∧
    statSync renamedAB.2 "b".toList = .ret { size := 0, mtimeMs := 100 } ∧
    statSync renamedAB.2 "c".toList = .undefined ∧
    (renameSync renamedAB.2 "b".toList "c".toList).1 = .throw ∧
    (∀ code, (renameSync renamedAB.2 "b".toList "c".toList).1 ≠ .ret code) ∧
    (renameSync renamedAB.2 "b".toList "c".toList).2 (dirKey "/data".toList)
      = renamedAB.2 (dirKey "/data".toList) := by
  have h1 : (renameSync emptyStore "a".toList "b".toList).1 = .throw := by decide
  have h2 : (renameSync resetSubF "a".toList "b".toList).1 = .throw := by decide
  have h3 : (renameSync renamedAB.2 "b".toList "c".toList).1 = .throw := by decide
  refine ⟨by decide, by decide, h1, ?_, by decide, by decide, h2, ?_, by decide, by decide,
    by decide, h3, ?_, by decide⟩
  · intro code
    rw [h1]
    exact fun e => Res.noConfusion e
  · intro code
    rw [h2]
    exact fun e => Res.noConfusion e
  · intro code
    rw [h3]
    exact fun e => Res.noConfusion e

/-! ## C10: mkdir -/

set_option maxRecDepth 100000 in
/-- C10 (mkdir) at the input where the code breaks it.  On the initialised
file system `/data` has no entry; `mkdirSync("/data/sub")` returns `0` and
stores the record of `/data/sub`, but `readdirSync({path: "/data"})` is still
empty: `_mkdir` pushes the name onto its parsed copy of the parent record and
never stores that record.  A second `mkdirSync("/data/sub")` returns `0` again
instead of a non-zero code. -/
theorem C10_mkdir_does_not_store_parent :
    readdirSync freshFS "/data".toList = .ret [] ∧
    madeSub.1 = .ret 0 ∧
    madeSub.2 (dirKey "/data/sub".toList)
      = some (.dir { path := "/data/sub".toList, files := [], dirs := [] }) ∧
    readdirSync madeSub.2 "/data".toList = .ret [] ∧
    (mkdirSync madeSub.2 "/data/sub".toList).1 = .ret 0 := by
  decide

/-! ## C11: reset -/

theorem resetLoop_mono :
    ∀ (fuel : Nat) (st : Store) (quene : List DirObj) (d f : Nat)
      (r : Res ResetResult × Store),
      resetLoop fuel st quene d f = some r → ∀ k, resetLoop (fuel + k) st quene d f = some r := by
  intro fuel
  induction fuel with
  | zero =>
    intro st quene d f r h k
    cases quene with
    | nil =>
      cases k <;> simpa [resetLoop] using h
    | cons a q => simp [resetLoop] at h
  | succ fuel ih =>
    intro st quene d f r h k
    cases quene with
    | nil =>
      simp only [resetLoop] at h
      simp only [resetLoop]
      exact h
    | cons a q =>
      have e : fuel + 1 + k = (fuel + k) + 1 := by omega
      rw [e]
      simp only [resetLoop] at h ⊢
      split
      · rename_i q2 hq
        rw [hq] at h
        exact ih _ _ _ _ _ h k
      · rename_i hq
        split at h
        · rename_i q3 hq3
          exact absurd hq3 (hq q3)
        · exact h

/-- More rounds than `_resetFileSystem` needs do not change what it returns. -/
theorem resetFileSystem_mono (fuel : Nat) (st : Store)
    (r : Res (Option ResetResult) × Store) (h : _resetFileSystem fuel st = some r) (k : Nat) :
    _resetFileSystem (fuel + k) st = some r := by
  unfold _resetFileSystem at h ⊢
  split
  · rename_i hi
    rw [if_pos hi] at h
    exact h
  · rename_i hi
    rw [if_neg hi] at h
    split
    · rename_i head hh
      rw [hh] at h
      simp only at h
      split
      · rename_i hd
        rw [hd] at h
        exact h
      · rename_i hd
        rw [hd] at h
        exact h
      · rename_i root hd
        rw [hd] at h
        simp only at h
        cases hl : resetLoop fuel st [root] 0 0 with
        | none => rw [hl] at h; cases h
        | some x =>
          rw [hl] at h
          rw [resetLoop_mono fuel st [root] 0 0 x hl k]
          exact h
    · rename_i hne
      split at h
      · rename_i head hh
        exact absurd hh (hne head)
      · exact h


set_option maxRecDepth 100000 in
/-- C11 (reset) at an input where the code breaks it.  After
`_initFileSystem()`, `mkdirSync("/data/sub")`,
`openSync({path: "sub/f", flag: O_CREAT})` and
`openSync({path: "a", flag: O_CREAT})` the store holds four directory records
(`/`, `/data`, `/assets`, `/data/sub`) and two files, `f` with block `1` and `a`
with block `2`.  `_resetFileSystem()` ends after three rounds of its loop, with
any number of rounds allowed, and returns `deletedDirCount` `3` and
`deletedFileCount` `1`, not `4` and `2`; afterwards the head record is gone
but the store still holds the directory record of `/data/sub`, with the file
record of `f`, and the block `1`. -/
theorem C11_reset_misses_directories_made_by_mkdir :
    openedSubFA.2.1 (dirKey "/".toList)
      = some (.dir { path := "/".toList, files := [],
                     dirs := ["data".toList, "assets".toList] }) ∧
    openedSubFA.2.1 (dirKey "/data".toList)
      = some (.dir { path := "/data".toList,
                     files := [{ name := "a".toList, path := some "/data".toList, size := 0,
                                 utc := 110, block := 2 }],
                     dirs := [] }) ∧
    openedSubFA.2.1 (dirKey "/assets".toList)
      = some (.dir { path := "/assets".toList, files := [], dirs := [] }) ∧
    openedSubFA.2.1 (dirKey "/data/sub".toList)
      = some (.dir { path := "/data/sub".toList,
                     files := [{ name := "f".toList, path := some "/data/sub".toList,
                                 size := 0, utc := 100, block := 1 }],
                     dirs := [] }) ∧
    openedSubFA.2.1 (blockKey 1) = some (.block []) ∧
    openedSubFA.2.1 (blockKey 2) = some (.block []) ∧
    (∀ k, _resetFileSystem (3 + k) openedSubFA.2.1 = _resetFileSystem 3 openedSubFA.2.1) ∧
    (_resetFileSystem 3 openedSubFA.2.1).map (fun r => r.1)
      = some (.ret (some { deletedDirCount := 3, deletedFileCount := 1 })) ∧
    (_resetFileSystem 3 openedSubFA.2.1).map (fun r => r.2 headKey) = some none ∧
    (_resetFileSystem 3 openedSubFA.2.1).map (fun r => r.2 (blockKey 2)) = some none ∧
    (_resetFileSystem 3 openedSubFA.2.1).map (fun r => r.2 (dirKey "/data/sub".toList))
      = some (some (.dir { path := "/data/sub".toList,
                           files := [{ name := "f".toList, path := some "/data/sub".toList,
                                       size := 0, utc := 100, block := 1 }],
                           dirs := [] })) ∧
    (_resetFileSystem 3 openedSubFA.2.1).map (fun r => r.2 (blockKey 1))
      = some (some (.block [])) := by
  refine ⟨by decide, by decide, by decide, by decide, by decide, by decide, ?_, by decide,
    by decide, by decide, by decide, by decide⟩
  intro k
  cases h : _resetFileSystem 3 openedSubFA.2.1 with
  | none =>
    have h2 : (_resetFileSystem 3 openedSubFA.2.1).isSome = true := by decide
    rw [h] at h2
    cases h2
  | some r => exact resetFileSystem_mono 3 _ r h k

/-! ## C12: close -/

theorem has_delete_self (m : HandleMap) (h : Nat) : (m.delete h).has h = false := by
  simp [HandleMap.has, HandleMap.delete]

theorem mem_delete (m : HandleMap) (h : Nat) (e : Nat × HandleInfo) :
    e ∈ m.delete h ↔ e ∈ m ∧ e.1 ≠ h := by
  simp [HandleMap.delete]

theorem get_delete_other (m : HandleMap) (h k : Nat) (hk : k ≠ h) :
    (m.delete h).get k = m.get k := by
  induction m with
  | nil => rfl
  | cons e m ih =>
    simp only [HandleMap.get, HandleMap.delete] at ih ⊢
    by_cases he : e.1 = h
    · have hp : (e.1 != h) = false := by simp [he]
      have hq : (e.1 == k) = false := by
        simp only [beq_eq_false_iff_ne, ne_eq]
        exact fun c => hk (c.symm.trans he)
      simp only [List.filter, List.find?, hp, hq]
      exact ih
    · have hp : (e.1 != h) = true := by simp [he]
      by_cases hek : e.1 = k
      · have hq : (e.1 == k) = true := by simp [hek]
        simp only [List.filter, List.find?, hp, hq]
      · have hq : (e.1 == k) = false := by simp [hek]
        simp only [List.filter, List.find?, hp, hq]
        exact ih

theorem has_delete_other (m : HandleMap) (h k : Nat) (hk : k ≠ h) :
    (m.delete h).has k = m.has k := by
  induction m with
  | nil => rfl
  | cons e m ih =>
    simp only [HandleMap.has, HandleMap.delete] at ih ⊢
    by_cases he : e.1 = h
    · have hp : (e.1 != h) = false := by simp [he]
      have hq : (e.1 == k) = false := by
        simp only [beq_eq_false_iff_ne, ne_eq]
        exact fun c => hk (c.symm.trans he)
      simp only [List.filter, List.any, hp, hq, Bool.false_or]
      exact ih
    · have hp : (e.1 != h) = true := by simp [he]
      simp only [List.filter, List.any, hp]
      rw [ih]

/-- C12 (close).  For every handle `h` in the handle table `closeSync(h)`
returns `0` and the table afterwards is the old one without the entry of `h`:
`h` is no longer a key, every other key has the value it had, and the entries
are the old entries whose key is not `h`; a second `closeSync(h)` then returns
`INVALID_HANDLE` and changes nothing.  For every number `h` that is not in the
table `closeSync(h)` returns `INVALID_HANDLE` and leaves the table as it is. -/
theorem C12_close (m : HandleMap) (h : Nat) :
    (m.has h = true →
      closeSync m (.fd h) = (0, m.delete h) ∧
      (m.delete h).has h = false ∧
      (∀ k, k ≠ h → (m.delete h).get k = m.get k ∧ (m.delete h).has k = m.has k) ∧
      (∀ e, e ∈ m.delete h ↔ e ∈ m ∧ e.1 ≠ h) ∧
      closeSync (m.delete h) (.fd h) = (INVALID_HANDLE, m.delete h)) ∧
    (m.has h = false → closeSync m (.fd h) = (INVALID_HANDLE, m)) := by
  constructor
  · intro hh
    refine ⟨by simp [closeSync, hh], has_delete_self m h,
      fun k hk => ⟨get_delete_other m h k hk, has_delete_other m h k hk⟩,
      mem_delete m h, by simp [closeSync, has_delete_self]⟩
  · intro hh
    simp [closeSync, hh]

set_option maxRecDepth 100000 in
/-- C12 at concrete inputs: with the handles of `a` and `b` open, closing
the handle of `a` leaves the handle of `b`, closing it again is refused, and
so is closing a number that was never a handle. -/
theorem C12_close_witness :
    closeSync openedAB.2.2 (.fd 114714)
      = (0, [(114724, { path := "/data/b".toList, flags := O_CREAT })]) ∧
    closeSync (openedAB.2.2.delete 114714) (.fd 114714)
      = (INVALID_HANDLE, openedAB.2.2.delete 114714) ∧
    closeSync openedAB.2.2 (.fd 7) = (INVALID_HANDLE, openedAB.2.2) :=
  ⟨((C12_close openedAB.2.2 114714).1 (by decide)).1.trans (by decide),
    ((C12_close openedAB.2.2 114714).1 (by decide)).2.2.2.2,
    (C12_close openedAB.2.2 7).2 (by decide)⟩

/-! ## C13: new handles -/

theorem probeHandle_mono (m : HandleMap) :
    ∀ (fuel handle h : Nat), probeHandle m fuel handle = some h →
      ∀ k, probeHandle m (fuel + k) handle = some h := by
  intro fuel
  induction fuel with
  | zero => intro handle h e; simp [probeHandle] at e
  | succ fuel ih =>
    intro handle h e k
    have e2 : fuel + 1 + k = (fuel + k) + 1 := by omega
    rw [e2]
    simp only [probeHandle] at e ⊢
    split
    · rename_i hh
      rw [if_pos hh] at e
      exact ih _ _ e k
    · rename_i hh
      rw [if_neg hh] at e
      exact e

theorem set_of_not_has (m : HandleMap) (h : Nat) (info : HandleInfo) (hh : m.has h = false) :
    m.set h info = m ++ [(h, info)] := by
  simp [HandleMap.set, hh]

theorem get_append_of_has (m : HandleMap) (k : Nat) (e : Nat × HandleInfo)
    (hk : m.has k = true) : HandleMap.get (m ++ [e]) k = m.get k := by
  induction m with
  | nil => simp [HandleMap.has] at hk
  | cons a m ih =>
    simp only [HandleMap.get, HandleMap.has] at ih hk ⊢
    by_cases ha : (a.1 == k) = true
    · simp only [List.cons_append, List.find?, ha]
    · have ha2 : (a.1 == k) = false := by simpa using ha
      simp only [List.any, ha2, Bool.false_or] at hk
      simp only [List.cons_append, List.find?, ha2]
      exact ih hk

/-- What `_getNewFileHandle` returns when it returns a handle. -/
theorem getNewFileHandle_ret {st st2 : Store} {m m2 : HandleMap} {tCreate tHandle h : Nat}
    {path : Str} {flags : Option Nat}
    (e : _getNewFileHandle st m tCreate tHandle path flags = (.ret h, st2, m2)) :
    probeHandle m (m.length + 1) ((tHandle + 114514) % 1919810) = some h ∧
      m2 = m.set h { path := path, flags := flags.getD O_RDONLY } := by
  obtain ⟨h0, hp, -, -⟩ := probeHandle_isSome m ((tHandle + 114514) % 1919810)
  unfold _getNewFileHandle at e
  simp only [hp] at e
  split at e
  · cases e
  · split at e
    · cases e
    · split at e
      · simp only [Prod.mk.injEq, Res.ret.injEq] at e
        obtain ⟨e1, -, e3⟩ := e
        subst e1
        exact ⟨hp, e3.symm⟩
      · cases e
      · cases e
  · split at e
    · cases e
    · simp only [Prod.mk.injEq, Res.ret.injEq] at e
      obtain ⟨e1, -, e3⟩ := e
      subst e1
      exact ⟨hp, e3.symm⟩

/-- C13 (handle uniqueness).  For every handle table (a finite list of
entries) and every clock reading the probing loop of `_getNewFileHandle` ends,
within `m.length + 1` tests of its condition and with the same value however
many tests are allowed, at a value that is not a key of the table.  Whenever
`_getNewFileHandle` returns a handle, that handle was not in the table before
the call, and the table afterwards is the old table with the one entry
`handle -> {path, flags}` appended, so every key that was in the table keeps
its value.  It does return a handle when the path names a file and the flags
do not have both the `O_CREAT` and the `O_EXCL` bit. -/
theorem C13_new_handle_is_unused (st : Store) (m : HandleMap) (tCreate tHandle : Nat)
    (path : Str) (flags : Option Nat) :
    (∃ h, (∀ fuel, m.length + 1 ≤ fuel →
          probeHandle m fuel ((tHandle + 114514) % 1919810) = some h) ∧ m.has h = false) ∧
    (∀ h st2 m2, _getNewFileHandle st m tCreate tHandle path flags = (.ret h, st2, m2) →
      m.has h = false ∧
      m2 = m ++ [(h, { path := path, flags := flags.getD O_RDONLY })] ∧
      (∀ k, m.has k = true → m2.get k = m.get k)) ∧
    (∀ f, _getFileObj st (some path) = .ret f →
      ¬ (Nat.land (flags.getD O_RDONLY) O_CREAT ≠ 0 ∧ Nat.land (flags.getD O_RDONLY) O_EXCL ≠ 0) →
      ∃ h, _getNewFileHandle st m tCreate tHandle path flags
        = (.ret h, st, m ++ [(h, { path := path, flags := flags.getD O_RDONLY })])) := by
  obtain ⟨h0, hp, hnot, -⟩ := probeHandle_isSome m ((tHandle + 114514) % 1919810)
  refine ⟨⟨h0, ?_, hnot⟩, ?_, ?_⟩
  · intro fuel hf
    have := probeHandle_mono m _ _ _ hp (fuel - (m.length + 1))
    have e : m.length + 1 + (fuel - (m.length + 1)) = fuel := by omega
    rw [e] at this
    exact this
  · intro h st2 m2 e
    obtain ⟨e1, e2⟩ := getNewFileHandle_ret e
    rw [hp] at e1
    cases e1
    subst e2
    rw [set_of_not_has m h0 _ hnot]
    exact ⟨hnot, rfl, fun k hk => get_append_of_has m k _ hk⟩
  · intro f hf hflags
    refine ⟨h0, ?_⟩
    unfold _getNewFileHandle
    simp only [hf, hp, if_neg hflags, set_of_not_has m h0 _ hnot]

set_option maxRecDepth 100000 in
/-- C13 at a concrete input: with the handle `114714` of `a` open, another
`_getNewFileHandle("/data/a")` returns a handle that is not in the table and
appends its entry. -/
theorem C13_new_handle_is_unused_witness :
    ∃ h, _getNewFileHandle openedA.2.1 openedA.2.2 100 200 "/data/a".toList none
        = (.ret h, openedA.2.1,
            openedA.2.2 ++ [(h, { path := "/data/a".toList, flags := O_RDONLY })]) ∧
      HandleMap.has openedA.2.2 h = false :=
  Exists.elim
    ((C13_new_handle_is_unused openedA.2.1 openedA.2.2 100 200 "/data/a".toList none).2.2
      { name := "a".toList, path := some "/data".toList, size := 0, utc := 100, block := 1 }
      (by decide) (by decide))
    (fun h e => ⟨h, e,
      ((C13_new_handle_is_unused openedA.2.1 openedA.2.2 100 200 "/data/a".toList none).2.1
        h _ _ e).1⟩)

/-! ## Keys of blocks -/

theorem digitChar_toNat (d : Nat) (h : d < 10) : (Nat.digitChar d).toNat - 48 = d := by
  interval_cases d <;> rfl

theorem readDigits_toDigitsCore :
    ∀ (fuel n : Nat) (ds : List Char), n < fuel →
      readDigits 0 (Nat.toDigitsCore 10 fuel n ds) = readDigits n ds := by
  intro fuel
  induction fuel with
  | zero => intro n ds h; omega
  | succ fuel ih =>
    intro n ds h
    simp only [Nat.toDigitsCore]
    have hd := digitChar_toNat (n % 10) (Nat.mod_lt _ (by decide))
    split
    · rename_i h0
      simp only [readDigits, List.foldl_cons, hd]
      have : 0 * 10 + n % 10 = n := by omega
      rw [this]
    · rename_i h0
      rw [ih (n / 10) _ (by omega)]
      simp only [readDigits, List.foldl_cons, hd]
      have : n / 10 * 10 + n % 10 = n := by omega
      rw [this]

theorem readDigits_toDigits (n : Nat) : readDigits 0 (Nat.toDigits 10 n) = n := by
  unfold Nat.toDigits
  rw [readDigits_toDigitsCore (n + 1) n [] (by omega)]
  rfl

/-- The decimal text of a block id determines the id. -/
theorem toDigits_inj {n m : Nat} (h : Nat.toDigits 10 n = Nat.toDigits 10 m) : n = m := by
  have := congrArg (readDigits 0) h
  simpa [readDigits_toDigits] using this

theorem blockKey_inj {n m : Nat} (h : blockKey n = blockKey m) : n = m := by
  apply toDigits_inj
  simpa [blockKey, _getKey] using h

/-! ## C14: error codes -/

set_option maxRecDepth 100000 in
/-- C14 as stated fails: with the files `a` and `b` in the store,
`renameSync({oldPath: "a", newPath: "b"})`, whose destination names a file,
returns `OPERATION_FAILURE` and not `ALREADY_EXIST`; `rmSync("zz")` and
`renameSync({oldPath: "zz", newPath: "y"})`, whose source names no file,
return `OPERATION_FAILURE` and not `FILE_NOT_EXIST`. -/
theorem C14_failures_return_operation_failure :
    statSync openedAB.2.1 "b".toList = .ret { size := 0, mtimeMs := 110 } ∧
    (renameSync openedAB.2.1 "a".toList "b".toList).1 = .ret OPERATION_FAILURE ∧
    (renameSync openedAB.2.1 "a".toList "b".toList).1 ≠ .ret ALREADY_EXIST ∧
    statSync openedAB.2.1 "zz".toList = .undefined ∧
    (rmSync openedAB.2.1 (.str "zz".toList)).1 = .ret OPERATION_FAILURE ∧
    (rmSync openedAB.2.1 (.str "zz".toList)).1 ≠ .ret FILE_NOT_EXIST ∧
    (renameSync openedAB.2.1 "zz".toList "y".toList).1 = .ret OPERATION_FAILURE ∧
    (renameSync openedAB.2.1 "zz".toList "y".toList).1 ≠ .ret FILE_NOT_EXIST := by
  decide

theorem renameSync_codes (st : Store) (a b : Str) :
    (renameSync st a b).1 = .throw ∨ (renameSync st a b).1 = .ret 0 ∨
      (renameSync st a b).1 = .ret ARG_TYPE_ERROR ∨
      (renameSync st a b).1 = .ret OPERATION_FAILURE := by
  unfold renameSync
  split
  · exact Or.inr (Or.inr (Or.inl rfl))
  · split
    · exact Or.inl rfl
    · exact Or.inr (Or.inr (Or.inr rfl))
    · exact Or.inr (Or.inl rfl)

theorem rmSync_codes (st : Store) (a : RmArg) :
    (rmSync st a).1 = .throw ∨ (rmSync st a).1 = .ret 0 ∨
      (rmSync st a).1 = .ret OPERATION_FAILURE := by
  unfold rmSync
  dsimp only
  split
  · exact Or.inl rfl
  · exact Or.inr (Or.inr rfl)
  · exact Or.inr (Or.inl rfl)

/-- With a head record and well-shaped directory records a path names no file
exactly when the lookup returns `undefined`. -/
theorem getFileObj_undefined_of_no_file {st : Store} {head : Head} (hok : StoreOK st)
    (hh : st headKey = some (.head head)) (p : Option Str)
    (hno : ∀ f, _getFileObj st p ≠ .ret f) : _getFileObj st p = .undefined := by
  cases h : _getFileObj st p with
  | ret f => exact absurd h (hno f)
  | undefined => rfl
  | throw => exact absurd h (getFileObj_ne_throw hok hh p)

theorem ne_ret_of_undefined {α : Type} {r : Res α} (h : r = .undefined) (x : α) :
    r ≠ .ret x := by
  rw [h]
  exact fun e => Res.noConfusion e

/-- C14, amended (error kinds).  `renameSync` and `rmSync` have one code for
every failure they report.  In an initialised file system (a store with a head
record and well-shaped directory records), on paths that do not end in a
separator, `renameSync` returns `OPERATION_FAILURE` when the destination path
names a file and when the source path names no file, and `rmSync`, for a string
or for an object, returns `OPERATION_FAILURE` when its path names no file; the
store is left as it was.  In every store: `renameSync` with a path that ends in
a separator returns `ARG_TYPE_ERROR`; a code that `renameSync` returns is `0`,
`ARG_TYPE_ERROR` or `OPERATION_FAILURE`, and a code that `rmSync` returns is `0`
or `OPERATION_FAILURE`, so neither ever returns `ALREADY_EXIST` or
`FILE_NOT_EXIST`; and a failure need not be reported by a code at all: in a
store with no head record both throw. -/
theorem C14_generic_failure_code (st : Store) (a b : Str) :
    ((∃ head, st headKey = some (.head head)) → StoreOK st →
      (endsWithSlash a = false → endsWithSlash b = false →
        (∃ f, _getFileObj st (some (join "/data/".toList b)) = .ret f) →
        renameSync st a b = (.ret OPERATION_FAILURE, st)) ∧
      (endsWithSlash a = false → endsWithSlash b = false →
        (∀ f, _getFileObj st (some (join "/data/".toList a)) ≠ .ret f) →
        renameSync st a b = (.ret OPERATION_FAILURE, st)) ∧
      ((∀ f, _getFileObj st (some (join "/data".toList a)) ≠ .ret f) →
        rmSync st (.str a) = (.ret OPERATION_FAILURE, st)) ∧
      (∀ p, (∀ f, _getFileObj st p ≠ .ret f) →
        rmSync st (.obj p) = (.ret OPERATION_FAILURE, st))) ∧
    ((endsWithSlash a = true ∨ endsWithSlash b = true) →
      renameSync st a b = (.ret ARG_TYPE_ERROR, st)) ∧
    (∀ code, (renameSync st a b).1 = .ret code →
      code = 0 ∨ code = ARG_TYPE_ERROR ∨ code = OPERATION_FAILURE) ∧
    (∀ arg code, (rmSync st arg).1 = .ret code → code = 0 ∨ code = OPERATION_FAILURE) ∧
    (renameSync st a b).1 ≠ .ret ALREADY_EXIST ∧
    (renameSync st a b).1 ≠ .ret FILE_NOT_EXIST ∧
    (∀ arg, (rmSync st arg).1 ≠ .ret ALREADY_EXIST ∧ (rmSync st arg).1 ≠ .ret FILE_NOT_EXIST) ∧
    ((∀ head, st headKey ≠ some (.head head)) →
      (endsWithSlash a = false → endsWithSlash b = false →
        endsWithSlash (join "/data/".toList a) = false → renameSync st a b = (.throw, st)) ∧
      (endsWithSlash (join "/data".toList a) = false → rmSync st (.str a) = (.throw, st))) := by
  refine ⟨?_, ?_, ?_, ?_, ?_, ?_, ?_, ?_⟩
  · rintro ⟨head, hh⟩ hok
    refine ⟨?_, ?_, ?_, ?_⟩
    · intro ha hb hf
      unfold renameSync
      simp only [ha, hb, Bool.or_self, Bool.false_eq_true, if_false]
      rw [moveFile_undefined st _ _ hok (Or.inl hf)]
    · intro ha hb hf
      unfold renameSync
      simp only [ha, hb, Bool.or_self, Bool.false_eq_true, if_false]
      rw [moveFile_undefined st _ _ hok
        (Or.inr (Or.inl (getFileObj_undefined_of_no_file hok hh _ hf)))]
    · intro hf
      unfold rmSync _removeFile
      simp only [getFileObj_undefined_of_no_file hok hh _ hf]
    · intro p hf
      unfold rmSync _removeFile
      simp only [getFileObj_undefined_of_no_file hok hh _ hf]
  · intro h
    unfold renameSync
    have e : (endsWithSlash a || endsWithSlash b) = true := by
      rcases h with h | h <;> simp [h]
    rw [if_pos e]
  · intro code hc
    rcases renameSync_codes st a b with h | h | h | h <;> rw [h] at hc <;> cases hc
    · exact Or.inl rfl
    · exact Or.inr (Or.inl rfl)
    · exact Or.inr (Or.inr rfl)
  · intro arg code hc
    rcases rmSync_codes st arg with h | h | h <;> rw [h] at hc <;> cases hc
    · exact Or.inl rfl
    · exact Or.inr rfl
  · rcases renameSync_codes st a b with h | h | h | h <;> rw [h] <;> decide
  · rcases renameSync_codes st a b with h | h | h | h <;> rw [h] <;> decide
  · intro arg
    rcases rmSync_codes st arg with h | h | h <;> rw [h] <;> exact ⟨by decide, by decide⟩
  · intro hh
    exact ⟨fun ha hb hja => renameSync_throw_of_no_head hh a b ha hb hja,
      fun hja => rmSync_throw_of_no_head hh a hja⟩

set_option maxRecDepth 100000 in
/-- C14, amended, at concrete inputs: in the store that holds `a` and `b`,
renaming `a` onto `b`, renaming the missing `zz` and removing the missing `zz`
return `OPERATION_FAILURE`; `renameSync` with the new path `y/` returns
`ARG_TYPE_ERROR`; and on the store with no key set renaming and removing `zz`
throw. -/
theorem C14_generic_failure_code_witness :
    renameSync openedAB.2.1 "a".toList "b".toList = (.ret OPERATION_FAILURE, openedAB.2.1) ∧
    renameSync openedAB.2.1 "zz".toList "y".toList = (.ret OPERATION_FAILURE, openedAB.2.1) ∧
    rmSync openedAB.2.1 (.str "zz".toList) = (.ret OPERATION_FAILURE, openedAB.2.1) ∧
    rmSync openedAB.2.1 (.obj (some "/data/zz".toList))
      = (.ret OPERATION_FAILURE, openedAB.2.1) ∧
    renameSync openedAB.2.1 "a".toList "y/".toList = (.ret ARG_TYPE_ERROR, openedAB.2.1) ∧
    renameSync emptyStore "zz".toList "y".toList = (.throw, emptyStore) ∧
    rmSync emptyStore (.str "zz".toList) = (.throw, emptyStore) :=
  ⟨((C14_generic_failure_code openedAB.2.1 "a".toList "b".toList).1
      ⟨{ root := "/".toList, nextFileBlockId := 3 }, by decide⟩
      (storeOK_openSync (storeOK_openSync storeOK_empty _ _ _ _ _) _ _ _ _ _)).1
      (by decide) (by decide)
      ⟨{ name := "b".toList, path := some "/data".toList, size := 0, utc := 110, block := 2 },
        by decide⟩,
    ((C14_generic_failure_code openedAB.2.1 "zz".toList "y".toList).1
      ⟨{ root := "/".toList, nextFileBlockId := 3 }, by decide⟩
      (storeOK_openSync (storeOK_openSync storeOK_empty _ _ _ _ _) _ _ _ _ _)).2.1
      (by decide) (by decide) (ne_ret_of_undefined (by decide)),
    ((C14_generic_failure_code openedAB.2.1 "zz".toList "y".toList).1
      ⟨{ root := "/".toList, nextFileBlockId := 3 }, by decide⟩
      (storeOK_openSync (storeOK_openSync storeOK_empty _ _ _ _ _) _ _ _ _ _)).2.2.1
      (ne_ret_of_undefined (by decide)),
    ((C14_generic_failure_code openedAB.2.1 "zz".toList "y".toList).1
      ⟨{ root := "/".toList, nextFileBlockId := 3 }, by decide⟩
      (storeOK_openSync (storeOK_openSync storeOK_empty _ _ _ _ _) _ _ _ _ _)).2.2.2
      (some "/data/zz".toList) (ne_ret_of_undefined (by decide)),
    (C14_generic_failure_code openedAB.2.1 "a".toList "y/".toList).2.1 (Or.inr (by decide)),
    ((C14_generic_failure_code emptyStore "zz".toList "y".toList).2.2.2.2.2.2.2
      (fun _ e => Option.noConfusion e)).1 (by decide) (by decide) (by decide),
    ((C14_generic_failure_code emptyStore "zz".toList "y".toList).2.2.2.2.2.2.2
      (fun _ e => Option.noConfusion e)).2 (by decide)⟩

/-! ## C15: flags -/

set_option maxRecDepth 100000 in
/-- C15 (flags are disjoint bits) where the code breaks it.  `O_TRUNC` is
`0x30`, the value of `O_CREAT | O_EXCL`: its bitwise AND with `O_CREAT` is
`O_CREAT` and with `O_EXCL` is `O_EXCL`, not `0`.  So
`openSync({path: "a", flag: O_TRUNC})` on the existing file `a` throws, as an
exclusive create does, and on the missing file `zz` it creates the file. -/
theorem C15_O_TRUNC_overlaps_O_CREAT_and_O_EXCL :
    O_TRUNC = O_CREAT ||| O_EXCL ∧
    Nat.land O_TRUNC O_CREAT = O_CREAT ∧
    Nat.land O_TRUNC O_EXCL = O_EXCL ∧
    statSync openedA.2.1 "a".toList = .ret { size := 0, mtimeMs := 100 } ∧
    (openSync openedA.2.1 openedA.2.2 500 600 "a".toList (some O_TRUNC)).1 = .throw ∧
    (openSync openedA.2.1 openedA.2.2 500 600 "a".toList (some (O_CREAT ||| O_EXCL))).1
      = .throw ∧
    statSync openedA.2.1 "zz".toList = .undefined ∧
    (openSync openedA.2.1 openedA.2.2 500 600 "zz".toList (some O_TRUNC)).1 = .ret 115114 ∧
    statSync (openSync openedA.2.1 openedA.2.2 500 600 "zz".toList (some O_TRUNC)).2.1
      "zz".toList = .ret { size := 0, mtimeMs := 500 } := by
  decide

/-! ## C16: the path of a file record -/

set_option maxRecDepth 100000 in
/-- C16 (parent-path invariant) where the code breaks it.  After
`openSync({path: "a", flag: O_CREAT})` and
`renameSync({oldPath: "a", newPath: "b"})`, which returns `0`, the record of the
moved file in the directory record of `/data` has no `path` at all, where the
directory's path is `/data`.  With a handle opened on `b`, `writeSync` throws,
and `renameSync({oldPath: "b", newPath: "c"})` throws: the file can neither be
written nor renamed again. -/
theorem C16_rename_drops_the_record_path :
    renamedAB.1 = .ret 0 ∧
    renamedAB.2 (dirKey "/data".toList)
      = some (.dir { path := "/data".toList,
                     files := [{ name := "b".toList, path := none, size := 0, utc := 100,
                                 block := 1 }],
                     dirs := [] }) ∧
    reopenedB.1 = .ret 114814 ∧
    (writeSync reopenedB.2.1 reopenedB.2.2 600 114814 [1]
        { offset := none, length := none, position := none }).1 = .throw ∧
    (renameSync reopenedB.2.1 "b".toList "c".toList).1 = .throw := by
  decide

/-! ## C17: names in a directory -/

set_option maxRecDepth 100000 in
/-- C17 (name uniqueness) where the code breaks it.  On the initialised file
system `_createFile("/data/a")` creates the file `a` with block `1`; a second
`_createFile("/data/a")` does not return `undefined` but a record with the
newly allocated block `2`, and `/data` then has two file records called `a`.
`_createFile("/data")` returns a record too, for a file `data` in `/`, whose
`dirs` has `data`.  `_mkdir("/data/a")` with the file `a` present, and
`_mkdir("/data/sub")` after `mkdirSync("/data/sub")`, return a directory
record, not `undefined`.  Through the public operations:
`openSync({path: "../data", flag: O_CREAT})` leaves the name `data` both in
`dirs` and in `files` of `/`. -/
theorem C17_duplicate_names_are_not_refused :
    createdA.1
      = .ret { name := "a".toList, path := some "/data".toList, size := 0, utc := 100,
               block := 1 } ∧
    createdAA.1
      = .ret { name := "a".toList, path := some "/data".toList, size := 0, utc := 110,
               block := 2 } ∧
    createdAA.2 (dirKey "/data".toList)
      = some (.dir { path := "/data".toList,
                     files := [{ name := "a".toList, path := some "/data".toList, size := 0,
                                 utc := 100, block := 1 },
                               { name := "a".toList, path := some "/data".toList, size := 0,
                                 utc := 110, block := 2 }],
                     dirs := [] }) ∧
    createdAA.2 (blockKey 2) = some (.block []) ∧
    createdAA.2 headKey = some (.head { root := "/".toList, nextFileBlockId := 3 }) ∧
    (_createFile freshFS 100 "/data".toList).1
      = .ret { name := "data".toList, path := some "/".toList, size := 0, utc := 100,
               block := 1 } ∧
    (_mkdir createdA.2 "/data/a".toList).1
      = .ret { path := "/data/a".toList, files := [], dirs := [] } ∧
    madeSub.1 = .ret 0 ∧
    (_mkdir madeSub.2 "/data/sub".toList).1
      = .ret { path := "/data/sub".toList, files := [], dirs := [] } ∧
    (openSync freshFS [] 100 200 "../data".toList (some O_CREAT)).2.1 (dirKey "/".toList)
      = some (.dir { path := "/".toList,
                     files := [{ name := "data".toList, path := some "/".toList, size := 0,
                                 utc := 100, block := 1 }],
                     dirs := ["data".toList, "assets".toList] }) := by
  decide

/-! ## Lists of file records -/

theorem getElem?_findFileIndex (l : List FileObj) (base : Str) (f : FileObj)
    (h : l.find? (fun obj => obj.name = base) = some f) :
    l[findFileIndex l f.name]? = some f := by
  induction l with
  | nil => cases h
  | cons g gs ih =>
    have hname : f.name = base := by
      have := List.find?_some h
      simpa using this
    by_cases hg : g.name = base
    · rw [List.find?_cons_of_pos _ (by simpa using hg)] at h
      cases h
      simp [findFileIndex]
    · rw [List.find?_cons_of_neg _ (by simpa using hg)] at h
      have hne : g.name ≠ f.name := by rw [hname]; exact hg
      simp only [findFileIndex, hne, ne_eq, not_false_eq_true, if_true, List.getElem?_cons_succ]
      exact ih h

theorem mem_of_getElem? {l : List FileObj} {i : Nat} {f : FileObj} (h : l[i]? = some f) :
    f ∈ l :=
  List.mem_iff_getElem?.2 ⟨i, h⟩

theorem lt_of_getElem? {l : List FileObj} {i : Nat} {f : FileObj} (h : l[i]? = some f) :
    i < l.length := by
  by_contra hc
  rw [List.getElem?_eq_none (Nat.le_of_not_lt hc)] at h
  cases h

theorem block_ne_of_nodup {l : List FileObj} (hnd : (l.map FileObj.block).Nodup) {i j : Nat}
    {f g : FileObj} (hf : l[i]? = some f) (hg : l[j]? = some g) (hij : j ≠ i) :
    g.block ≠ f.block := by
  intro hb
  have hi := lt_of_getElem? hf
  have hj := lt_of_getElem? hg
  have h1 : (l.map FileObj.block)[i]? = some f.block := by simp [hf]
  have h2 : (l.map FileObj.block)[j]? = some g.block := by simp [hg]
  rw [hb] at h2
  have hi2 : i < (l.map FileObj.block).length := by simpa using hi
  have hj2 : j < (l.map FileObj.block).length := by simpa using hj
  rw [List.getElem?_eq_getElem hi2] at h1
  rw [List.getElem?_eq_getElem hj2] at h2
  have := (List.Nodup.getElem_inj_iff hnd).1 ((Option.some.inj h2).trans (Option.some.inj h1).symm)
  exact hij this

theorem mem_set_cases {l : List FileObj} {i : Nat} {f2 g : FileObj} (h : g ∈ l.set i f2) :
    g = f2 ∨ ∃ j, j ≠ i ∧ l[j]? = some g := by
  obtain ⟨j, hj⟩ := List.mem_iff_getElem?.1 h
  rw [List.getElem?_set] at hj
  split at hj
  · split at hj
    · exact Or.inl (Option.some.inj hj).symm
    · cases hj
  · rename_i hne
    exact Or.inr ⟨j, fun e => hne e.symm, hj⟩

theorem mem_eraseIdx_cases {l : List FileObj} {i : Nat} {g : FileObj} (h : g ∈ l.eraseIdx i) :
    ∃ j, j ≠ i ∧ l[j]? = some g := by
  obtain ⟨j, hj⟩ := List.mem_iff_getElem?.1 h
  rw [List.getElem?_eraseIdx] at hj
  split at hj
  · rename_i hlt
    exact ⟨j, Nat.ne_of_lt hlt, hj⟩
  · rename_i hge
    exact ⟨j + 1, by omega, hj⟩

theorem map_block_set {l : List FileObj} {i : Nat} {f f2 : FileObj} (hf : l[i]? = some f)
    (hb : f2.block = f.block) : (l.set i f2).map FileObj.block = l.map FileObj.block := by
  apply List.ext_getElem?
  intro j
  rw [List.getElem?_map, List.getElem?_map, List.getElem?_set]
  split
  · rename_i hij
    subst hij
    simp [lt_of_getElem? hf, hf, hb]
  · rfl

theorem nodup_eraseIdx {l : List FileObj} (hnd : (l.map FileObj.block).Nodup) (i : Nat) :
    ((l.eraseIdx i).map FileObj.block).Nodup :=
  List.Nodup.sublist ((List.eraseIdx_sublist l i).map _) hnd

theorem nodup_append_one {l : List FileObj} (hnd : (l.map FileObj.block).Nodup) (f : FileObj)
    (hf : ∀ g ∈ l, g.block ≠ f.block) : ((l ++ [f]).map FileObj.block).Nodup := by
  rw [List.map_append, List.nodup_append]
  refine ⟨hnd, by simp, ?_⟩
  intro b hb hb2
  simp only [List.map_cons, List.map_nil, List.mem_singleton] at hb2
  obtain ⟨g, hg, rfl⟩ := List.mem_map.1 hb
  exact hf g hg hb2

/-! ## The invariant of the reachable stores -/

theorem removeItem_other (st : Store) {k k2 : Str} (h : k2 ≠ k) :
    _removeItem st k k2 = st k2 := by
  simp [_removeItem, h]

theorem dirKey_ne_of_ne {p q : Str} (h : p ≠ q) : dirKey p ≠ dirKey q :=
  fun e => h (dirKey_inj e)

theorem blockKey_ne_of_ne {n m : Nat} (h : n ≠ m) : blockKey n ≠ blockKey m :=
  fun e => h (blockKey_inj e)

theorem sizedFile_of_agree {st st2 : Store} {f : FileObj} (h : SizedFile st f)
    (he : st2 (blockKey f.block) = st (blockKey f.block)) : SizedFile st2 f := by
  obtain ⟨b, hb, hs⟩ := h
  exact ⟨b, by rw [he, hb], hs⟩

/-- The invariant after one directory record was replaced, the counter not
lowered, and the other directory records left as they were. -/
theorem fsInv_update {st st2 : Store} {n n2 : Nat} (h : FSInv st n) (p0 : Str) (d2 : DirObj)
    (hhead : st2 headKey = some (.head { root := "/".toList, nextFileBlockId := n2 }))
    (hdir0 : st2 (dirKey p0) = some (.dir d2))
    (hpath : d2.path = p0)
    (hdir : ∀ p, p ≠ p0 → st2 (dirKey p) = st (dirKey p))
    (hle : n ≤ n2)
    (hlt : ∀ f ∈ d2.files, f.block < n2)
    (hnd : (d2.files.map FileObj.block).Nodup)
    (hcross : ∀ f ∈ d2.files, ∀ p d, p ≠ p0 → st (dirKey p) = some (.dir d) →
      ∀ g ∈ d.files, f.block ≠ g.block)
    (hhome : ∀ f ∈ d2.files, ∀ q, f.path = some q → targetPath "/".toList q = p0)
    (hsized0 : ∀ f ∈ d2.files, SizedFile st2 f)
    (hsized : ∀ p d, p ≠ p0 → st (dirKey p) = some (.dir d) → ∀ g ∈ d.files, SizedFile st2 g) :
    FSInv st2 n2 := by
  have key : ∀ p d, st2 (dirKey p) = some (.dir d) →
      (p = p0 ∧ d = d2) ∨ (p ≠ p0 ∧ st (dirKey p) = some (.dir d)) := by
    intro p d hd
    by_cases hp : p = p0
    · subst hp
      rw [hdir0] at hd
      cases hd
      exact Or.inl ⟨rfl, rfl⟩
    · rw [hdir p hp] at hd
      exact Or.inr ⟨hp, hd⟩
  refine ⟨hhead, ?_, ?_, ?_, ?_, ?_, ?_⟩
  · intro p v hv
    by_cases hp : p = p0
    · subst hp
      rw [hdir0] at hv
      cases hv
      exact ⟨d2, rfl, hpath⟩
    · rw [hdir p hp] at hv
      exact h.ok p v hv
  · intro p d hd f hf
    rcases key p d hd with ⟨rfl, rfl⟩ | ⟨hp, hd⟩
    · exact hlt f hf
    · exact Nat.lt_of_lt_of_le (h.lt p d hd f hf) hle
  · intro p d hd
    rcases key p d hd with ⟨rfl, rfl⟩ | ⟨hp, hd⟩
    · exact hnd
    · exact h.nodup p d hd
  · intro p1 d1 p2 d2 hd1 hd2 f1 hf1 f2 hf2 hb
    rcases key p1 d1 hd1 with ⟨rfl, rfl⟩ | ⟨hp1, hd1⟩
    · rcases key p2 d2 hd2 with ⟨rfl, rfl⟩ | ⟨hp2, hd2⟩
      · rfl
      · exact absurd hb (hcross f1 hf1 p2 d2 hp2 hd2 f2 hf2)
    · rcases key p2 d2 hd2 with ⟨rfl, rfl⟩ | ⟨hp2, hd2⟩
      · exact absurd hb.symm (hcross f2 hf2 p1 d1 hp1 hd1 f1 hf1)
      · exact h.cross p1 d1 p2 d2 hd1 hd2 f1 hf1 f2 hf2 hb
  · intro p d hd f hf q hq
    rcases key p d hd with ⟨rfl, rfl⟩ | ⟨hp, hd⟩
    · exact hhome f hf q hq
    · exact h.home p d hd f hf q hq
  · intro p d hd f hf
    rcases key p d hd with ⟨rfl, rfl⟩ | ⟨hp, hd⟩
    · exact hsized0 f hf
    · exact hsized p d hp hd f hf

/-- The invariant after `_setItem` of one directory record under its own path. -/
theorem fsInv_setDir {st : Store} {n : Nat} (h : FSInv st n) (d2 : DirObj)
    (hlt : ∀ f ∈ d2.files, f.block < n)
    (hnd : (d2.files.map FileObj.block).Nodup)
    (hcross : ∀ f ∈ d2.files, ∀ p d, p ≠ d2.path → st (dirKey p) = some (.dir d) →
      ∀ g ∈ d.files, f.block ≠ g.block)
    (hhome : ∀ f ∈ d2.files, ∀ q, f.path = some q → targetPath "/".toList q = d2.path)
    (hsized0 : ∀ f ∈ d2.files, SizedFile st f) :
    FSInv (_setItem st (dirKey d2.path) (.dir d2)) n := by
  have hb : ∀ k, _setItem st (dirKey d2.path) (.dir d2) (blockKey k) = st (blockKey k) :=
    fun k => setItem_other _ _ (blockKey_ne_dirKey k _)
  refine fsInv_update h d2.path d2 ?_ (setItem_same _ _ _) rfl ?_ (Nat.le_refl _) hlt hnd hcross
    hhome ?_ ?_
  · rw [setItem_other _ _ (headKey_ne_dirKey _)]
    exact h.head
  · intro p hp
    exact setItem_other _ _ (dirKey_ne_of_ne hp)
  · intro f hf
    exact sizedFile_of_agree (hsized0 f hf) (hb _)
  · intro p d _ hd g hg
    exact sizedFile_of_agree (h.sized p d hd g hg) (hb _)

/-- What the two lookups of `_writeFile`, `_removeFile` and `_moveFile` find:
the directory record that the record's own `path` leads to is the one the file
was found in, stored under its own path, and the index loop stops at the
record. -/
theorem parent_of_found {st : Store} {n : Nat} (h : FSInv st n) {path : Str} {f : FileObj}
    {d : DirObj} (hf : _getFileObj st (some path) = .ret f)
    (hd : _getDirObj st f.path = .ret d) :
    st (dirKey d.path) = some (.dir d) ∧ d.files[findFileIndex d.files f.name]? = some f := by
  unfold _getFileObj at hf
  simp only at hf
  split at hf
  · cases hf
  · split at hf
    · cases hf
    · cases hf
    · rename_i d0 hd0
      split at hf
      · rename_i obj hfind
        cases hf
        obtain ⟨head0, hh0, hs0⟩ := getDirObj_ret hd0
        rw [h.head] at hh0
        cases hh0
        have hmem : f ∈ d0.files := List.mem_of_find?_eq_some hfind
        cases hq : f.path with
        | none =>
          rw [hq] at hd
          simp [_getDirObj] at hd
        | some q =>
          rw [hq] at hd
          obtain ⟨head1, hh1, hs1⟩ := getDirObj_ret hd
          rw [h.head] at hh1
          cases hh1
          have hp := h.home _ d0 hs0 f hmem q hq
          simp only at hs0 hs1 hp
          rw [hp, hs0] at hs1
          cases hs1
          obtain ⟨d1, hd1, hpath⟩ := h.ok _ _ hs0
          cases hd1
          rw [hpath]
          exact ⟨hs0, getElem?_findFileIndex _ _ _ hfind⟩
      · cases hf

theorem fsInv_init : FSInv (_initFileSystem emptyStore) 1 := by
  have hk : ∀ p d, (_initFileSystem emptyStore) (dirKey p) = some (.dir d) → d.files = [] := by
    intro p d hd
    have h : _checkIfInited emptyStore = false := rfl
    unfold _initFileSystem at hd
    simp only [h, Bool.false_eq_true, if_false, _setItem] at hd
    split at hd
    · cases hd; rfl
    · split at hd
      · cases hd; rfl
      · split at hd
        · cases hd; rfl
        · split at hd
          · cases hd
          · cases hd
  refine ⟨by decide, storeOK_init, ?_, ?_, ?_, ?_, ?_⟩
  · intro p d hd f hf
    rw [hk p d hd] at hf
    cases hf
  · intro p d hd
    rw [hk p d hd]
    exact List.nodup_nil
  · intro p1 d1 p2 d2 hd1 _ f1 hf1
    rw [hk p1 d1 hd1] at hf1
    cases hf1
  · intro p d hd f hf
    rw [hk p d hd] at hf
    cases hf
  · intro p d hd f hf
    rw [hk p d hd] at hf
    cases hf

/-! ## Every call keeps the invariant -/

theorem fsInv_createFile {st : Store} {n : Nat} (h : FSInv st n) (now : Nat) (q : Str) :
    ∃ n2, n ≤ n2 ∧ FSInv (_createFile st now q).2 n2 := by
  by_cases hends : endsWithSlash q = true
  · refine ⟨n, Nat.le_refl _, ?_⟩
    unfold _createFile
    rw [if_pos hends]
    exact h
  · have hends : endsWithSlash q = false := by simpa using hends
    cases hparent : _getDirObj st (some (parse (join "/".toList q)).dir) with
    | throw =>
      refine ⟨n, Nat.le_refl _, ?_⟩
      unfold _createFile
      simp only [hends, hparent, Bool.false_eq_true, if_false]
      exact h
    | undefined =>
      refine ⟨n, Nat.le_refl _, ?_⟩
      unfold _createFile
      simp only [hends, hparent, Bool.false_eq_true, if_false]
      exact h
    | ret parent =>
      refine ⟨n + 1, Nat.le_succ _, ?_⟩
      rw [createFile_eq now q hends h.head hparent]
      dsimp only
      obtain ⟨head0, hh0, hs0⟩ := getDirObj_ret hparent
      rw [h.head] at hh0
      cases hh0
      simp only at hs0
      obtain ⟨d1, hd1, hpath⟩ := h.ok _ _ hs0
      cases hd1
      rw [← hpath] at hs0
      have hold : ∀ p d, st (dirKey p) = some (.dir d) → ∀ g ∈ d.files,
          SizedFile
            (_setItem
              (_setItem (_setItem st (blockKey n) (.block [])) headKey
                (.head { root := "/".toList, nextFileBlockId := n + 1 }))
              (dirKey parent.path)
              (.dir { parent with files := parent.files ++
                [{ name := (parse (join "/".toList q)).base,
                   path := some (parse (join "/".toList q)).dir,
                   size := 0, utc := now, block := n }] })) g := by
        intro p d hd g hg
        refine sizedFile_of_agree (h.sized p d hd g hg) ?_
        rw [setItem_other _ _ (blockKey_ne_dirKey _ _), setItem_other _ _ (blockKey_ne_headKey _),
          setItem_other _ _ (blockKey_ne_of_ne (Nat.ne_of_lt (h.lt p d hd g hg)))]
      refine fsInv_update h parent.path
        { parent with files := parent.files ++
            [{ name := (parse (join "/".toList q)).base,
               path := some (parse (join "/".toList q)).dir,
               size := 0, utc := now, block := n }] }
        ?_ (setItem_same _ _ _) rfl ?_ (Nat.le_succ _) ?_ ?_ ?_ ?_ ?_ ?_
      · rw [setItem_other _ _ (headKey_ne_dirKey _), setItem_same]
      · intro p hp
        rw [setItem_other _ _ (dirKey_ne_of_ne hp), setItem_other _ _ (dirKey_ne_headKey _),
          setItem_other _ _ (dirKey_ne_blockKey _ _)]
      · intro f hf
        rcases List.mem_append.1 hf with hf | hf
        · exact Nat.lt_succ_of_lt (h.lt _ _ hs0 f hf)
        · rw [List.mem_singleton.1 hf]
          exact Nat.lt_succ_self _
      · refine nodup_append_one (h.nodup _ _ hs0) _ ?_
        intro g hg
        exact Nat.ne_of_lt (h.lt _ _ hs0 g hg)
      · intro f hf p d hp hd g hg
        rcases List.mem_append.1 hf with hf | hf
        · intro hb
          exact hp (h.cross _ _ _ _ hd hs0 g hg f hf hb.symm)
        · rw [List.mem_singleton.1 hf]
          exact Nat.ne_of_gt (h.lt p d hd g hg)
      · intro f hf q2 hq2
        rcases List.mem_append.1 hf with hf | hf
        · exact h.home _ _ hs0 f hf q2 hq2
        · rw [List.mem_singleton.1 hf] at hq2
          cases hq2
          exact hpath.symm
      · intro f hf
        rcases List.mem_append.1 hf with hf | hf
        · exact hold _ _ hs0 f hf
        · rw [List.mem_singleton.1 hf]
          refine ⟨[], ?_, rfl⟩
          rw [setItem_other _ _ (blockKey_ne_dirKey _ _),
            setItem_other _ _ (blockKey_ne_headKey _), setItem_same]
      · intro p d _ hd g hg
        exact hold p d hd g hg

theorem fsInv_writeFile {st : Store} {n : Nat} (h : FSInv st n) (now : Nat) {path : Str}
    {f : FileObj} (hf : _getFileObj st (some path) = .ret f) (bin : List Byte) (o : IOOptions) :
    FSInv (_writeFile st now (some f) bin o).2 n := by
  unfold _writeFile
  dsimp only
  split
  · rename_i d hd
    obtain ⟨hs, hi⟩ := parent_of_found h hf hd
    have hlen := lt_of_getElem? hi
    rw [if_neg (Nat.ne_of_lt hlen)]
    dsimp only
    generalize newBlock st f bin (o.offset.getD 0) _ (o.position.getD 0) = buf
    have hfm : f ∈ d.files := mem_of_getElem? hi
    refine fsInv_update h d.path
      { d with files := d.files.set (findFileIndex d.files f.name)
                 { f with size := buf.length, utc := now } }
      ?_ ?_ rfl ?_ (Nat.le_refl _) ?_ ?_ ?_ ?_ ?_ ?_
    · rw [setItem_other _ _ (headKey_ne_blockKey _), setItem_other _ _ (headKey_ne_dirKey _)]
      exact h.head
    · rw [setItem_other _ _ (dirKey_ne_blockKey _ _), setItem_same]
    · intro p hp
      rw [setItem_other _ _ (dirKey_ne_blockKey _ _), setItem_other _ _ (dirKey_ne_of_ne hp)]
    · intro g hg
      rcases mem_set_cases hg with rfl | ⟨j, _, hj⟩
      · exact h.lt _ _ hs f hfm
      · exact h.lt _ _ hs g (mem_of_getElem? hj)
    · have := @map_block_set _ _ f { f with size := buf.length, utc := now } hi rfl
      dsimp only
      rw [this]
      exact h.nodup _ _ hs
    · intro g hg p d2 hp hd2 g2 hg2 hb
      rcases mem_set_cases hg with rfl | ⟨j, _, hj⟩
      · exact hp (h.cross _ _ _ _ hd2 hs g2 hg2 f hfm hb.symm)
      · exact hp (h.cross _ _ _ _ hd2 hs g2 hg2 g (mem_of_getElem? hj) hb.symm)
    · intro g hg q hq
      rcases mem_set_cases hg with rfl | ⟨j, _, hj⟩
      · exact h.home _ _ hs f hfm q hq
      · exact h.home _ _ hs g (mem_of_getElem? hj) q hq
    · intro g hg
      rcases mem_set_cases hg with rfl | ⟨j, hji, hj⟩
      · exact ⟨buf, setItem_same _ _ _, rfl⟩
      · refine sizedFile_of_agree (h.sized _ _ hs g (mem_of_getElem? hj)) ?_
        rw [setItem_other _ _ (blockKey_ne_of_ne (block_ne_of_nodup (h.nodup _ _ hs) hi hj hji)),
          setItem_other _ _ (blockKey_ne_dirKey _ _)]
    · intro p d2 hp hd2 g hg
      refine sizedFile_of_agree (h.sized _ _ hd2 g hg) ?_
      have hne : g.block ≠ f.block := fun hb => hp (h.cross _ _ _ _ hd2 hs g hg f hfm hb)
      rw [setItem_other _ _ (blockKey_ne_of_ne hne), setItem_other _ _ (blockKey_ne_dirKey _ _)]
  · exact h

theorem fsInv_removeFile {st : Store} {n : Nat} (h : FSInv st n) (pathLike : Option Str) :
    FSInv (_removeFile st pathLike).2 n := by
  unfold _removeFile
  split
  · exact h
  · exact h
  · rename_i f hf
    cases pathLike with
    | none => simp [_getFileObj] at hf
    | some path =>
      split
      · rename_i d hd
        obtain ⟨hs, hi⟩ := parent_of_found h hf hd
        have hlen := lt_of_getElem? hi
        dsimp only
        rw [if_neg (Nat.ne_of_lt hlen)]
        dsimp only [_free]
        have hfm : f ∈ d.files := mem_of_getElem? hi
        refine fsInv_update h d.path
          { d with files := d.files.eraseIdx (findFileIndex d.files f.name) }
          ?_ ?_ rfl ?_ (Nat.le_refl _) ?_ ?_ ?_ ?_ ?_ ?_
        · rw [removeItem_other _ (headKey_ne_blockKey _),
            setItem_other _ _ (headKey_ne_dirKey _)]
          exact h.head
        · rw [removeItem_other _ (dirKey_ne_blockKey _ _), setItem_same]
        · intro p hp
          rw [removeItem_other _ (dirKey_ne_blockKey _ _), setItem_other _ _ (dirKey_ne_of_ne hp)]
        · intro g hg
          obtain ⟨j, _, hj⟩ := mem_eraseIdx_cases hg
          exact h.lt _ _ hs g (mem_of_getElem? hj)
        · exact nodup_eraseIdx (h.nodup _ _ hs) _
        · intro g hg p d2 hp hd2 g2 hg2 hb
          obtain ⟨j, _, hj⟩ := mem_eraseIdx_cases hg
          exact hp (h.cross _ _ _ _ hd2 hs g2 hg2 g (mem_of_getElem? hj) hb.symm)
        · intro g hg q hq
          obtain ⟨j, _, hj⟩ := mem_eraseIdx_cases hg
          exact h.home _ _ hs g (mem_of_getElem? hj) q hq
        · intro g hg
          obtain ⟨j, hji, hj⟩ := mem_eraseIdx_cases hg
          refine sizedFile_of_agree (h.sized _ _ hs g (mem_of_getElem? hj)) ?_
          rw [removeItem_other _
              (blockKey_ne_of_ne (block_ne_of_nodup (h.nodup _ _ hs) hi hj hji)),
            setItem_other _ _ (blockKey_ne_dirKey _ _)]
        · intro p d2 hp hd2 g hg
          refine sizedFile_of_agree (h.sized _ _ hd2 g hg) ?_
          have hne : g.block ≠ f.block := fun hb => hp (h.cross _ _ _ _ hd2 hs g hg f hfm hb)
          rw [removeItem_other _ (blockKey_ne_of_ne hne),
            setItem_other _ _ (blockKey_ne_dirKey _ _)]
      · exact h

theorem fsInv_mkdir {st : Store} {n : Nat} (h : FSInv st n) (pathLike : Str) :
    FSInv (_mkdir st pathLike).2 n := by
  have hnew : ∀ p : Str,
      FSInv (_setItem st (dirKey p) (.dir { path := p, files := [], dirs := [] })) n := by
    intro p
    refine fsInv_setDir h { path := p, files := [], dirs := [] } ?_ List.nodup_nil ?_ ?_ ?_
    · intro f hf; cases hf
    · intro f hf; cases hf
    · intro f hf; cases hf
    · intro f hf; cases hf
  unfold _mkdir
  dsimp only
  repeat' split
  all_goals first
    | exact h
    | exact hnew _

/-- The store after `_moveFile`: unchanged, or written by the tail of the
function after the lookups that lead there. -/
theorem moveFile_cases (st : Store) (o n : Str) :
    (_moveFile st o n).2 = st ∨
    ∃ f dOld dNew X, _getFileObj st (some o) = .ret f ∧ _getDirObj st f.path = .ret dOld ∧
      _getDirObj st (some X) = .ret dNew ∧
      ((dOld.path ≠ dNew.path ∧ findFileIndex dOld.files f.name ≠ dOld.files.length ∧
        (_moveFile st o n).2 =
          (moveFileStore st f
            { dOld with files := dOld.files.eraseIdx (findFileIndex dOld.files f.name) }
            dNew n).2) ∨
       (dOld.path = dNew.path ∧ findFileIndex dNew.files f.name ≠ dNew.files.length ∧
        (_moveFile st o n).2 =
          (moveFileStore st f dOld
            { dNew with files := dNew.files.eraseIdx (findFileIndex dNew.files f.name) }
            n).2)) := by
  unfold _moveFile
  repeat' split
  all_goals (try dsimp only)
  all_goals (repeat' split)
  all_goals (try exact Or.inl rfl)
  · rename_i _ f hf _ _ _ _ _ dNew hnew _ _ _ dOld hold hne hidx
    refine Or.inr ⟨f, dOld, dNew, if endsWithSlash n then n else (parse n).dir, hf, hold, ?_,
      Or.inl ⟨hne, hidx, rfl⟩⟩
    by_cases he : endsWithSlash n = true
    · simp only [he, if_true] at hnew ⊢
      exact hnew
    · simp only [he, if_false] at hnew ⊢
      exact hnew
  · rename_i _ f hf _ _ _ _ _ dNew hnew _ _ _ dOld hold hne hidx
    refine Or.inr ⟨f, dOld, dNew, if endsWithSlash n then n else (parse n).dir, hf, hold, ?_,
      Or.inr ⟨not_not.1 hne, hidx, rfl⟩⟩
    by_cases he : endsWithSlash n = true
    · simp only [he, if_true] at hnew ⊢
      exact hnew
    · simp only [he, if_false] at hnew ⊢
      exact hnew

/-- The record that `_moveFile` appends: renamed unless the new path ends in a
separator, and with the `path` property of a string. -/
theorem moved_block (f : FileObj) (p : Str) :
    ({ (if (!endsWithSlash p) = true then { f with name := (parse p).base } else f) with
        path := strPath p } : FileObj).block = f.block ∧
    ({ (if (!endsWithSlash p) = true then { f with name := (parse p).base } else f) with
        path := strPath p } : FileObj).size = f.size ∧
    ({ (if (!endsWithSlash p) = true then { f with name := (parse p).base } else f) with
        path := strPath p } : FileObj).path = none := by
  split <;> exact ⟨rfl, rfl, rfl⟩

theorem fsInv_append_moved {st : Store} {n : Nat} (h : FSInv st n) (d : DirObj) (l : List FileObj)
    (f g : FileObj) (hgb : g.block = f.block) (hgs : g.size = f.size) (hgp : g.path = none)
    (hl : ∀ x ∈ l, x ∈ d.files)
    (hd : st (dirKey d.path) = some (.dir d))
    (hnd : (l.map FileObj.block).Nodup)
    (hfl : ∀ x ∈ l, x.block ≠ f.block)
    (hfn : f.block < n)
    (hfs : SizedFile st f)
    (hfo : ∀ q d2, q ≠ d.path → st (dirKey q) = some (.dir d2) → ∀ x ∈ d2.files,
      f.block ≠ x.block) :
    FSInv (_setItem st (dirKey d.path) (.dir { d with files := l ++ [g] })) n := by
  refine fsInv_setDir h { d with files := l ++ [g] } ?_ ?_ ?_ ?_ ?_
  · intro x hx
    rcases List.mem_append.1 hx with hx | hx
    · exact h.lt _ _ hd x (hl x hx)
    · rw [List.mem_singleton.1 hx, hgb]
      exact hfn
  · refine nodup_append_one hnd _ ?_
    intro x hx
    rw [hgb]
    exact hfl x hx
  · intro x hx q d2 hq hd2 x2 hx2 hb
    rcases List.mem_append.1 hx with hx | hx
    · exact hq (h.cross _ _ _ _ hd2 hd x2 hx2 x (hl x hx) hb.symm)
    · rw [List.mem_singleton.1 hx, hgb] at hb
      exact hfo q d2 hq hd2 x2 hx2 hb
  · intro x hx q hq
    rcases List.mem_append.1 hx with hx | hx
    · exact h.home _ _ hd x (hl x hx) q hq
    · rw [List.mem_singleton.1 hx, hgp] at hq
      cases hq
  · intro x hx
    rcases List.mem_append.1 hx with hx | hx
    · exact h.sized _ _ hd x (hl x hx)
    · rw [List.mem_singleton.1 hx]
      obtain ⟨b, hb, hsz⟩ := hfs
      exact ⟨b, by rw [hgb]; exact hb, by rw [hgs]; exact hsz⟩

theorem fsInv_moveFile {st : Store} {n : Nat} (h : FSInv st n) (o p : Str) :
    FSInv (_moveFile st o p).2 n := by
  rcases moveFile_cases st o p with he | ⟨f, dOld, dNew, X, hf, hold, hnew, hc⟩
  · rw [he]
    exact h
  · obtain ⟨hs, hi⟩ := parent_of_found h hf hold
    have hfm : f ∈ dOld.files := mem_of_getElem? hi
    obtain ⟨head0, hh0, hsn⟩ := getDirObj_ret hnew
    obtain ⟨d1, hd1, hpath⟩ := h.ok _ _ hsn
    cases hd1
    rw [← hpath] at hsn
    obtain ⟨hmb, hms, hmp⟩ := moved_block f p
    rcases hc with ⟨hne, _, he⟩ | ⟨heq, _, he⟩
    · rw [he]
      unfold moveFileStore
      dsimp only
      have h1 : FSInv (_setItem st (dirKey dOld.path)
          (.dir { dOld with files := dOld.files.eraseIdx (findFileIndex dOld.files f.name) })) n := by
        refine fsInv_setDir h
          { dOld with files := dOld.files.eraseIdx (findFileIndex dOld.files f.name) }
          ?_ (nodup_eraseIdx (h.nodup _ _ hs) _) ?_ ?_ ?_
        · intro g hg
          obtain ⟨j, _, hj⟩ := mem_eraseIdx_cases hg
          exact h.lt _ _ hs g (mem_of_getElem? hj)
        · intro g hg q d2 hq hd2 g2 hg2 hb
          obtain ⟨j, _, hj⟩ := mem_eraseIdx_cases hg
          exact hq (h.cross _ _ _ _ hd2 hs g2 hg2 g (mem_of_getElem? hj) hb.symm)
        · intro g hg q hq
          obtain ⟨j, _, hj⟩ := mem_eraseIdx_cases hg
          exact h.home _ _ hs g (mem_of_getElem? hj) q hq
        · intro g hg
          obtain ⟨j, _, hj⟩ := mem_eraseIdx_cases hg
          exact h.sized _ _ hs g (mem_of_getElem? hj)
      have hsn1 : _setItem st (dirKey dOld.path)
          (.dir { dOld with files := dOld.files.eraseIdx (findFileIndex dOld.files f.name) })
          (dirKey dNew.path) = some (.dir dNew) := by
        rw [setItem_other _ _ (dirKey_ne_of_ne (Ne.symm hne))]
        exact hsn
      refine fsInv_append_moved h1 dNew dNew.files f _ hmb hms hmp (fun x hx => hx) hsn1
        (h.nodup _ _ hsn) ?_ (h.lt _ _ hs f hfm) ?_ ?_
      · intro g hg hb
        exact hne (h.cross _ _ _ _ hs hsn f hfm g hg hb.symm)
      · exact sizedFile_of_agree (h.sized _ _ hs f hfm)
          (setItem_other _ _ (blockKey_ne_dirKey _ _))
      · intro q d2 hq hd2 g2 hg2 hb
        by_cases hqo : q = dOld.path
        · subst hqo
          rw [setItem_same] at hd2
          cases hd2
          obtain ⟨j, hji, hj⟩ := mem_eraseIdx_cases hg2
          exact block_ne_of_nodup (h.nodup _ _ hs) hi hj hji hb.symm
        · rw [setItem_other _ _ (dirKey_ne_of_ne hqo)] at hd2
          exact hqo (h.cross _ _ _ _ hd2 hs g2 hg2 f hfm hb.symm)
    · rw [he]
      unfold moveFileStore
      dsimp only
      have hdd : dOld = dNew := by
        rw [heq, hsn] at hs
        cases hs
        rfl
      subst hdd
      have h1 : FSInv (_setItem st (dirKey dOld.path) (.dir dOld)) n := by
        refine fsInv_setDir h dOld (h.lt _ _ hs) (h.nodup _ _ hs) ?_ (h.home _ _ hs)
          (h.sized _ _ hs)
        intro g hg q d2 hq hd2 g2 hg2 hb
        exact hq (h.cross _ _ _ _ hd2 hs g2 hg2 g hg hb.symm)
      refine fsInv_append_moved h1 dOld (dOld.files.eraseIdx (findFileIndex dOld.files f.name)) f _
        hmb hms hmp ?_ (setItem_same _ _ _) (nodup_eraseIdx (h.nodup _ _ hs) _) ?_
        (h.lt _ _ hs f hfm) ?_ ?_
      · intro x hx
        obtain ⟨j, _, hj⟩ := mem_eraseIdx_cases hx
        exact mem_of_getElem? hj
      · intro x hx
        obtain ⟨j, hji, hj⟩ := mem_eraseIdx_cases hx
        exact block_ne_of_nodup (h.nodup _ _ hs) hi hj hji
      · exact sizedFile_of_agree (h.sized _ _ hs f hfm)
          (setItem_other _ _ (blockKey_ne_dirKey _ _))
      · intro q d2 hq hd2 g2 hg2 hb
        rw [setItem_other _ _ (dirKey_ne_of_ne hq)] at hd2
        exact hq (h.cross _ _ _ _ hd2 hs g2 hg2 f hfm hb.symm)

/-! ## Reachable stores keep the invariant -/

theorem fsInv_step {st st2 : Store} {n : Nat} (h : FSInv st n) (hs : Step st st2) :
    ∃ n2, n ≤ n2 ∧ FSInv st2 n2 := by
  cases hs with
  | createFile now p => exact fsInv_createFile h now p
  | writeFile now path f bin o hf => exact ⟨n, Nat.le_refl _, fsInv_writeFile h now hf bin o⟩
  | removeFile p => exact ⟨n, Nat.le_refl _, fsInv_removeFile h p⟩
  | moveFile o p => exact ⟨n, Nat.le_refl _, fsInv_moveFile h o p⟩
  | mkdir p => exact ⟨n, Nat.le_refl _, fsInv_mkdir h p⟩

theorem fsInv_reach {st st2 : Store} {n : Nat} (h : FSInv st n)
    (hr : Relation.ReflTransGen Step st st2) : ∃ n2, n ≤ n2 ∧ FSInv st2 n2 := by
  induction hr with
  | refl => exact ⟨n, Nat.le_refl _, h⟩
  | tail _ hs ih =>
    obtain ⟨n1, hle, h1⟩ := ih
    obtain ⟨n2, hle2, h2⟩ := fsInv_step h1 hs
    exact ⟨n2, Nat.le_trans hle hle2, h2⟩

theorem fsInv_of_reachable {st : Store} (h : Reachable st) : ∃ n, FSInv st n := by
  obtain ⟨n, _, hn⟩ := fsInv_reach fsInv_init h
  exact ⟨n, hn⟩

/-! ## The public operations lead from reachable stores to reachable stores -/

theorem getNewFileHandle_store (st : Store) (m : HandleMap) (tCreate tHandle : Nat) (path : Str)
    (flags : Option Nat) :
    (_getNewFileHandle st m tCreate tHandle path flags).2.1 = st ∨
    (_getNewFileHandle st m tCreate tHandle path flags).2.1 = (_createFile st tCreate path).2 := by
  unfold _getNewFileHandle
  dsimp only
  split
  · exact Or.inl rfl
  · split
    · exact Or.inl rfl
    · refine Or.inr ?_
      rcases _createFile st tCreate path with ⟨r, s⟩
      cases r with
      | ret f =>
        dsimp only
        split <;> rfl
      | undefined => rfl
      | throw => rfl
  · split
    · exact Or.inl rfl
    · split <;> exact Or.inl rfl

theorem reachable_openSync {st : Store} (h : Reachable st) (m : HandleMap) (tCreate tHandle : Nat)
    (P : Str) (flag : Option Nat) : Reachable (openSync st m tCreate tHandle P flag).2.1 := by
  obtain ⟨n, hn⟩ := fsInv_of_reachable h
  have hinit : _checkIfInited st = true := by simp [_checkIfInited, _getItem, hn.head]
  have hst : (openSync st m tCreate tHandle P flag).2.1 =
      (_getNewFileHandle st m tCreate tHandle (join "/data".toList P)
        (some (flag.getD O_RDONLY))).2.1 := by
    unfold openSync
    simp only [hinit, Bool.not_true, Bool.false_eq_true, if_false]
    rcases _getNewFileHandle st m tCreate tHandle (join "/data".toList P)
      (some (flag.getD O_RDONLY)) with ⟨r, s, m2⟩
    cases r <;> rfl
  rw [hst]
  rcases getNewFileHandle_store st m tCreate tHandle (join "/data".toList P)
    (some (flag.getD O_RDONLY)) with he | he
  · rw [he]
    exact h
  · rw [he]
    exact Relation.ReflTransGen.tail h (Step.createFile st tCreate _)

theorem reachable_writeSync {st : Store} (h : Reachable st) (m : HandleMap) (now fd : Nat)
    (buffer : List Byte) (o : IOOptions) : Reachable (writeSync st m now fd buffer o).2 := by
  unfold writeSync
  split
  · exact h
  · exact h
  · rename_i info hinfo
    unfold _parseFileHandle at hinfo
    split at hinfo
    · cases hinfo
    · split at hinfo
      · cases hinfo
      · rename_i basic_info _
        split at hinfo
        · cases hinfo
        · cases hinfo
          exact h
        · rename_i f hf
          cases hinfo
          exact Relation.ReflTransGen.tail h (Step.writeFile st now basic_info.path f buffer o hf)

theorem reachable_rmSync {st : Store} (h : Reachable st) (a : RmArg) :
    Reachable (rmSync st a).2 := by
  have key : ∀ p, Reachable
      (match _removeFile st p with
        | (.throw, st) => ((.throw : Res Nat), st)
        | (.undefined, st) => (.ret OPERATION_FAILURE, st)
        | (.ret _, st) => (.ret 0, st)).2 := by
    intro p
    have hr : Reachable (_removeFile st p).2 :=
      Relation.ReflTransGen.tail h (Step.removeFile st p)
    revert hr
    rcases _removeFile st p with ⟨r, s⟩
    intro hr
    cases r <;> exact hr
  unfold rmSync
  cases a with
  | str p => exact key _
  | obj p => exact key _

theorem reachable_renameSync {st : Store} (h : Reachable st) (a b : Str) :
    Reachable (renameSync st a b).2 := by
  unfold renameSync
  split
  · exact h
  · have hr : Reachable (_moveFile st (join "/data/".toList a) (join "/data/".toList b)).2 :=
      Relation.ReflTransGen.tail h (Step.moveFile st _ _)
    revert hr
    rcases _moveFile st (join "/data/".toList a) (join "/data/".toList b) with ⟨r, s⟩
    intro hr
    cases r <;> exact hr

theorem reachable_mkdirSync {st : Store} (h : Reachable st) (p : Str) :
    Reachable (mkdirSync st p).2 := by
  have hr : Reachable (_mkdir st p).2 := Relation.ReflTransGen.tail h (Step.mkdir st p)
  revert hr
  unfold mkdirSync
  rcases _mkdir st p with ⟨r, s⟩
  intro hr
  cases r <;> exact hr

/-! ## Sizes in reachable stores -/

/-- A successful `_writeFile` persists the record with the length of the block
it persists as its `size`. -/
theorem writeFile_size {st st2 : Store} {now : Nat} {f : FileObj} {bin : List Byte}
    {o : IOOptions} {n : Int} (h : _writeFile st now (some f) bin o = (.ret n, st2)) :
    ∃ (d : DirObj) (buf : List Byte), _getDirObj st f.path = .ret d ∧
      findFileIndex d.files f.name < d.files.length ∧
      st2 (dirKey d.path)
        = some (.dir { d with
                       files := d.files.set (findFileIndex d.files f.name)
                                  { f with size := buf.length, utc := now } }) ∧
      st2 (blockKey f.block) = some (.block buf) := by
  unfold _writeFile at h
  dsimp only at h
  split at h
  · rename_i d hd
    split at h
    · cases h
    · rename_i hi
      simp only [Prod.mk.injEq, Res.ret.injEq] at h
      obtain ⟨_, h2⟩ := h
      subst h2
      refine ⟨d, _, hd, ?_, ?_, setItem_same _ _ _⟩
      · have hle : ∀ (l : List FileObj) (name : Str), findFileIndex l name ≤ l.length := by
          intro l name
          induction l with
          | nil => exact Nat.le_refl _
          | cons g gs ih =>
            unfold findFileIndex
            split
            · exact Nat.succ_le_succ ih
            · exact Nat.zero_le _
        exact Nat.lt_of_le_of_ne (hle _ _) hi
      · rw [setItem_other _ _ (dirKey_ne_blockKey _ _), setItem_same]
  · cases h

/-- Without a reset `statSync` reports the length of the block of the record
it finds. -/
theorem stat_size_of_reachable {st : Store} (h : Reachable st) (P : Str) (s : Stat)
    (hs : statSync st P = .ret s) :
    ∃ f b, _getFileObj st (some (join "/data/".toList P)) = .ret f ∧
      st (blockKey f.block) = some (.block b) ∧ s.size = b.length := by
  obtain ⟨n, hn⟩ := fsInv_of_reachable h
  unfold statSync at hs
  split at hs
  · cases hs
  · cases hs
  · rename_i f hf
    cases hs
    have hf2 := hf
    unfold _getFileObj at hf2
    simp only at hf2
    split at hf2
    · cases hf2
    · split at hf2
      · cases hf2
      · cases hf2
      · rename_i d0 hd0
        split at hf2
        · rename_i obj hfind
          cases hf2
          obtain ⟨head0, _, hs0⟩ := getDirObj_ret hd0
          obtain ⟨b, hb, hsz⟩ := hn.sized _ d0 hs0 f (List.mem_of_find?_eq_some hfind)
          exact ⟨f, b, hf, hb, hsz⟩
        · cases hf2

/-! ## C18: block ids -/

/-- C18 (block identifiers are never reused).  In every store `st` reached
from initialization without a reset the head record has a counter `n`; every
file record's block id is below `n`; two file records with the same block id
are the same entry of the same directory record; `_alloc` returns `n` and
stores the counter `n + 1` and an empty block `n`.  In every store `st2` reached
from `st` the counter `n2` is at least `n`, `_alloc` returns `n2`, and so
returns the block id of no file record of `st`, removed since or not. -/
theorem C18_block_ids_are_never_reused (st st2 : Store) (h : Reachable st)
    (h2 : Relation.ReflTransGen Step st st2) :
    ∃ n n2 : Nat,
      st headKey = some (.head { root := "/".toList, nextFileBlockId := n }) ∧
      st2 headKey = some (.head { root := "/".toList, nextFileBlockId := n2 }) ∧
      (∀ p d f, st (dirKey p) = some (.dir d) → f ∈ d.files → f.block < n) ∧
      (∀ (p1 p2 : Str) (d1 d2 : DirObj) (i j : Nat) (f1 f2 : FileObj),
        st (dirKey p1) = some (.dir d1) → d1.files[i]? = some f1 →
        st (dirKey p2) = some (.dir d2) → d2.files[j]? = some f2 →
        f1.block = f2.block → p1 = p2 ∧ i = j) ∧
      _alloc st = (.ret n,
        _setItem (_setItem st (blockKey n) (.block [])) headKey
          (.head { root := "/".toList, nextFileBlockId := n + 1 })) ∧
      n ≤ n2 ∧
      (_alloc st2).1 = .ret n2 ∧
      (∀ p d f, st (dirKey p) = some (.dir d) → f ∈ d.files → (_alloc st2).1 ≠ .ret f.block) := by
  obtain ⟨n, hn⟩ := fsInv_of_reachable h
  obtain ⟨n2, hle, hn2⟩ := fsInv_reach hn h2
  have ha2 : (_alloc st2).1 = .ret n2 := by simp [_alloc, _getItem, hn2.head]
  refine ⟨n, n2, hn.head, hn2.head, ?_, ?_, ?_, hle, ha2, ?_⟩
  · intro p d f hd hf
    exact hn.lt p d hd f hf
  · intro p1 p2 d1 d2 i j f1 f2 hd1 hf1 hd2 hf2 hb
    have hp := hn.cross p1 d1 p2 d2 hd1 hd2 f1 (mem_of_getElem? hf1) f2 (mem_of_getElem? hf2) hb
    subst hp
    rw [hd1] at hd2
    cases hd2
    refine ⟨rfl, ?_⟩
    by_contra hij
    exact block_ne_of_nodup (hn.nodup _ _ hd1) hf2 hf1 hij hb
  · simp [_alloc, _getItem, hn.head]
  · intro p d f hd hf
    rw [ha2]
    intro he
    have := hn.lt p d hd f hf
    cases he
    omega

set_option maxRecDepth 100000 in
/-- C18 at a concrete input: the store after `_createFile("/data/a")` on the
initialised file system, and the store after `_removeFile("/data/a")` on it. -/
theorem C18_block_ids_are_never_reused_witness :
    ∃ n n2 : Nat,
      createdA.2 headKey = some (.head { root := "/".toList, nextFileBlockId := n }) ∧
      removedA.2 headKey = some (.head { root := "/".toList, nextFileBlockId := n2 }) ∧
      (∀ p d f, createdA.2 (dirKey p) = some (.dir d) → f ∈ d.files → f.block < n) ∧
      (∀ (p1 p2 : Str) (d1 d2 : DirObj) (i j : Nat) (f1 f2 : FileObj),
        createdA.2 (dirKey p1) = some (.dir d1) → d1.files[i]? = some f1 →
        createdA.2 (dirKey p2) = some (.dir d2) → d2.files[j]? = some f2 →
        f1.block = f2.block → p1 = p2 ∧ i = j) ∧
      _alloc createdA.2 = (.ret n,
        _setItem (_setItem createdA.2 (blockKey n) (.block [])) headKey
          (.head { root := "/".toList, nextFileBlockId := n + 1 })) ∧
      n ≤ n2 ∧
      (_alloc removedA.2).1 = .ret n2 ∧
      (∀ p d f, createdA.2 (dirKey p) = some (.dir d) → f ∈ d.files →
        (_alloc removedA.2).1 ≠ .ret f.block) :=
  C18_block_ids_are_never_reused createdA.2 removedA.2
    (Relation.ReflTransGen.single (Step.createFile freshFS 100 "/data/a".toList))
    (Relation.ReflTransGen.single (Step.removeFile createdA.2 (some "/data/a".toList)))

/-! ## C19: sizes -/

set_option maxRecDepth 100000 in
/-- C19 (size matches content) where the code breaks it.  After
`_initFileSystem()`, `mkdirSync("/data/sub")` and
`openSync({path: "sub/f", flag: O_CREAT})` the file `sub/f` has size `0` and the
empty block `1`.  `_resetFileSystem()` ends after three rounds, with any
number of rounds allowed, removes the head record and leaves the directory record
of `/data/sub`.  `openSync({path: "a", flag: O_CREAT})` then initialises again
and gives the file `a` the block `1`, and `writeSync` of the bytes `1, 2, 3` to
`a` returns `3`.  In the store reached, `statSync({path: "sub/f"})` reports the
size `0`, while the block `1` of that record holds three bytes. -/
theorem C19_stat_differs_from_block_after_reset :
    statSync openedSubF.2.1 "sub/f".toList = .ret { size := 0, mtimeMs := 100 } ∧
    openedSubF.2.1 (blockKey 1) = some (.block []) ∧
    (∀ k, _resetFileSystem (3 + k) openedSubF.2.1 = _resetFileSystem 3 openedSubF.2.1) ∧
    (_resetFileSystem 3 openedSubF.2.1).map (fun r => r.1)
      = some (.ret (some { deletedDirCount := 3, deletedFileCount := 0 })) ∧
    (_resetFileSystem 3 openedSubF.2.1).map (fun r => r.2 headKey) = some none ∧
    resetSubF headKey = none ∧
    reopenedA.1 = .ret 114914 ∧
    _getFileObj reopenedA.2.1 (some "/data/a".toList)
      = .ret { name := "a".toList, path := some "/data".toList, size := 0, utc := 300,
               block := 1 } ∧
    refilledA.1 = .ret 3 ∧
    statSync refilledA.2 "a".toList = .ret { size := 3, mtimeMs := 500 } ∧
    _getFileObj refilledA.2 (some "/data/sub/f".toList)
      = .ret { name := "f".toList, path := some "/data/sub".toList, size := 0, utc := 100,
               block := 1 } ∧
    refilledA.2 (blockKey 1) = some (.block [1, 2, 3]) ∧
    statSync refilledA.2 "sub/f".toList = .ret { size := 0, mtimeMs := 100 } := by
  refine ⟨by decide, by decide, ?_, by decide, by decide, by decide, by decide, by decide,
    by decide, by decide, by decide, by decide, by decide⟩
  intro k
  cases h : _resetFileSystem 3 openedSubF.2.1 with
  | none =>
    have h2 : (_resetFileSystem 3 openedSubF.2.1).isSome = true := by decide
    rw [h] at h2
    cases h2
  | some r => exact resetFileSystem_mono 3 _ r h k

/-! ## C20: keys -/

/-- C20 (store keys do not collide).  For record types `t1`, `t2` among
`config`, `dir` and `block` and any sub-keys `s1`, `s2`,
`_getKey(t1, s1) = _getKey(t2, s2)` implies `t1 = t2` and `s1 = s2`; and when
the sub-keys are the decimal texts of two block ids, the ids are equal. -/
theorem C20_keys_do_not_collide (t1 t2 s1 s2 : Str) (h1 : t1 ∈ recordTypes)
    (h2 : t2 ∈ recordTypes) (h : _getKey t1 s1 = _getKey t2 s2) :
    t1 = t2 ∧ s1 = s2 ∧
      ∀ n m : Nat, s1 = Nat.toDigits 10 n → s2 = Nat.toDigits 10 m → n = m := by
  have key : t1 = t2 ∧ s1 = s2 := by
    simp only [recordTypes, List.mem_cons, List.mem_singleton, List.not_mem_nil, or_false]
      at h1 h2
    rcases h1 with rfl | rfl | rfl <;> rcases h2 with rfl | rfl | rfl <;>
      simp [_getKey] at h ⊢ <;> exact h
  refine ⟨key.1, key.2, ?_⟩
  intro n m hn hm
  apply toDigits_inj
  rw [← hn, ← hm]
  exact key.2

/-- C20 at concrete inputs: the key of the directory `/data` taken twice, and
the keys of the sub-key `1` under `dir` and under `block`, which differ. -/
theorem C20_keys_do_not_collide_witness :
    ("dir".toList = "dir".toList ∧ "/data".toList = "/data".toList) ∧
    _getKey "dir".toList "1".toList ≠ _getKey "block".toList "1".toList :=
  ⟨⟨(C20_keys_do_not_collide "dir".toList "dir".toList "/data".toList "/data".toList
        (by decide) (by decide) rfl).1,
    (C20_keys_do_not_collide "dir".toList "dir".toList "/data".toList "/data".toList
        (by decide) (by decide) rfl).2.1⟩,
    fun e => absurd
      (C20_keys_do_not_collide "dir".toList "block".toList "1".toList "1".toList
        (by decide) (by decide) e).1 (by decide)⟩

/-! ## C21: the gap of a write past the end -/

theorem oldBlock_eq {st : Store} {f : FileObj} {old : List Byte}
    (hold : st (blockKey f.block) = some (.block old)) : oldBlock st f = old := by
  simp [oldBlock, _getItem, hold]

/-- C21 (gap fill on growth).  For a file whose block holds the bytes `old`
and a successful `_writeFile` with `position > old.length`, the block stored
afterwards has at least `old.length` bytes; its first `old.length` bytes are
`old`; every byte of it at an index in `[old.length, position)` is `0`; its
length is `max(old.length, position + n)`, with `n` the returned length; and
when `offset` is within the source buffer it reaches up to `position`, so
that the whole gap is there. -/
theorem C21_gap_is_zero_filled (st : Store) (now : Nat) (f : FileObj) (bin : List Byte)
    (o : IOOptions) (old : List Byte) (n : Int)
    (hold : st (blockKey f.block) = some (.block old))
    (hpos : old.length < o.position.getD 0)
    (hret : (_writeFile st now (some f) bin o).1 = .ret n) :
    ∃ blk : List Byte,
      (_writeFile st now (some f) bin o).2 (blockKey f.block) = some (.block blk) ∧
      old.length ≤ blk.length ∧
      blk.take old.length = old ∧
      (∀ j, old.length ≤ j → j < o.position.getD 0 → j < blk.length → blk[j]? = some 0) ∧
      (blk.length : Int) = max (old.length : Int) (o.position.getD 0 + n) ∧
      (o.offset.getD 0 ≤ bin.length → o.position.getD 0 ≤ blk.length) := by
  have h : _writeFile st now (some f) bin o = (.ret n, (_writeFile st now (some f) bin o).2) :=
    Prod.ext hret rfl
  obtain ⟨hn, hb⟩ := writeFile_ret h
  have hp0 : o.position.getD 0 ≠ 0 := by omega
  have hob := oldBlock_eq hold
  have hlen := length_newBlock st f bin (o.offset.getD 0) n (o.position.getD 0) hp0
  rw [hob] at hlen
  have hbelow := getD_newBlock_below_position st f bin (o.offset.getD 0) n (o.position.getD 0) hp0
  rw [hob] at hbelow
  generalize newBlock st f bin (o.offset.getD 0) n (o.position.getD 0) = blk at hb hlen hbelow
  have hle : old.length ≤ blk.length := by omega
  refine ⟨blk, hb, hle, ?_, ?_, hlen, ?_⟩
  · apply List.ext_getElem
    · rw [List.length_take]
      omega
    · intro j h1 h2
      have e := hbelow j (by omega)
      rw [List.getD_eq_getElem _ _ (by omega), List.getD_eq_getElem _ _ h2] at e
      rw [List.getElem_take]
      exact e
  · intro j hj1 hj2 hj3
    have e := hbelow j hj2
    rw [List.getD_eq_getElem _ _ hj3, List.getD_eq_getElem?_getD,
      List.getElem?_eq_none (by omega)] at e
    rw [List.getElem?_eq_getElem hj3, e]
    rfl
  · intro hoff
    have hn0 : 0 ≤ n := by
      rw [hn]
      split <;> omega
    omega

set_option maxRecDepth 100000 in
/-- C21 at a concrete input: the file `a` holds `1, 2, 3, 4`, and the byte `9`
is written at position `6`; the block is then `1, 2, 3, 4, 0, 0, 9`. -/
theorem C21_gap_is_zero_filled_witness :
    (∃ blk : List Byte,
      gapWrittenA.2 (blockKey 1) = some (.block blk) ∧
      4 ≤ blk.length ∧
      blk.take 4 = [1, 2, 3, 4] ∧
      (∀ j, 4 ≤ j → j < 6 → j < blk.length → blk[j]? = some 0) ∧
      (blk.length : Int) = max (4 : Int) (6 + 1) ∧
      (0 ≤ 1 → 6 ≤ blk.length)) ∧
    _getFileObj filledA.2 (some "/data/a".toList)
      = .ret { name := "a".toList, path := some "/data".toList, size := 4, utc := 300,
               block := 1 } ∧
    gapWrittenA.1 = .ret 1 ∧
    gapWrittenA.2 (blockKey 1) = some (.block [1, 2, 3, 4, 0, 0, 9]) :=
  ⟨C21_gap_is_zero_filled filledA.2 400
      { name := "a".toList, path := some "/data".toList, size := 4, utc := 300, block := 1 }
      [9] { offset := none, length := none, position := some 6 } [1, 2, 3, 4] 1
      (by decide) (by decide) (by decide),
    by decide, by decide, by decide⟩

end CBFS
